import Mathlib

/-!
Verification development for the registryjs browser key-value store.

The development shallowly embeds the modular variant of the library
(`src/registry.js` together with `crypto.js`, `namespace.js`, `storage.js`,
`utils.js`, bundled verbatim in `dist/registry.esm.js`): JavaScript strings
become lists of UTF-16 code units, the ambient `localStorage` substrate
becomes an explicit association list threaded through every operation, and
the wall clock (`Math.floor(Date.now() / 1000)`) becomes an explicit
integer parameter.  JavaScript exceptions that the source catches are
modelled by total functions returning the same fallback the catch block
returns; `Option` marks host primitives (`JSON.parse`, `parseInt`) whose
failure or `NaN` outcome the source branches on.
-/

namespace RegistryJs

/-- A JavaScript string, modelled as its list of UTF-16 code units. -/
abbrev JsStr := List Nat

/-- Code units of a Lean string literal.  All concrete strings appearing in
the source and in the claims are ASCII, where Lean code points coincide with
UTF-16 code units. -/
def strToCodes (s : String) : JsStr := s.data.map Char.toNat

/-- JSON-representable values, the closed algebraic type demanded by the
spec (null, boolean, number, string, ordered sequence, string-keyed
mapping).  Numbers are modelled as exact integers: every claim manipulates
integral numbers, and an integer of magnitude at most `2 ^ 53` is carried
exactly by the JavaScript number type. -/
inductive JsonValue where
  | jnull : JsonValue
  | jbool (b : Bool) : JsonValue
  | jnum (n : Int) : JsonValue
  | jstr (s : JsStr) : JsonValue
  | jobj (fields : List (JsStr × JsonValue)) : JsonValue
  | jarr (elems : List JsonValue) : JsonValue

mutual

/-- Boolean structural equality of JSON values. -/
def jvBeq : JsonValue → JsonValue → Bool
  | .jnull, .jnull => true
  | .jbool a, .jbool b => a == b
  | .jnum a, .jnum b => decide (a = b)
  | .jstr a, .jstr b => decide (a = b)
  | .jobj a, .jobj b => jvBeqFields a b
  | .jarr a, .jarr b => jvBeqElems a b
  | _, _ => false

/-- Boolean equality of element lists. -/
def jvBeqElems : List JsonValue → List JsonValue → Bool
  | [], [] => true
  | x :: xs, y :: ys => jvBeq x y && jvBeqElems xs ys
  | _, _ => false

/-- Boolean equality of field lists. -/
def jvBeqFields : List (JsStr × JsonValue) → List (JsStr × JsonValue) → Bool
  | [], [] => true
  | (k, v) :: xs, (k2, v2) :: ys => decide (k = k2) && jvBeq v v2 && jvBeqFields xs ys
  | _, _ => false

end

mutual

theorem jvBeq_iff : ∀ a b : JsonValue, jvBeq a b = true ↔ a = b
  | .jnull, b => by cases b <;> simp [jvBeq]
  | .jbool a, b => by cases b <;> simp [jvBeq]
  | .jnum a, b => by cases b <;> simp [jvBeq]
  | .jstr a, b => by cases b <;> simp [jvBeq]
  | .jobj a, b => by
      cases b <;> simp [jvBeq]
      exact jvBeqFields_iff a _
  | .jarr a, b => by
      cases b <;> simp [jvBeq]
      exact jvBeqElems_iff a _

theorem jvBeqElems_iff : ∀ xs ys : List JsonValue, jvBeqElems xs ys = true ↔ xs = ys
  | [], ys => by cases ys <;> simp [jvBeqElems]
  | x :: xs, ys => by
      cases ys with
      | nil => simp [jvBeqElems]
      | cons y ys =>
          simp only [jvBeqElems, Bool.and_eq_true, jvBeq_iff x y, jvBeqElems_iff xs ys,
            List.cons.injEq]

theorem jvBeqFields_iff :
    ∀ xs ys : List (JsStr × JsonValue), jvBeqFields xs ys = true ↔ xs = ys
  | [], ys => by cases ys <;> simp [jvBeqFields]
  | (k, v) :: xs, ys => by
      cases ys with
      | nil => simp [jvBeqFields]
      | cons y ys =>
          obtain ⟨k2, v2⟩ := y
          simp only [jvBeqFields, Bool.and_eq_true, jvBeq_iff v v2, jvBeqFields_iff xs ys,
            decide_eq_true_iff, List.cons.injEq, Prod.mk.injEq, and_assoc]

end

instance : DecidableEq JsonValue := fun a b => decidable_of_iff _ (jvBeq_iff a b)

/-- ASCII code of a hexadecimal digit (lowercase letters, as emitted by
`JSON.stringify` when escaping control characters). -/
def hexDigit (n : Nat) : Nat := if n < 10 then 48 + n else 87 + n

/-- Four hexadecimal digits of a code unit below `2 ^ 16`. -/
def hex4 (n : Nat) : List Nat :=
  [hexDigit (n / 4096 % 16), hexDigit (n / 256 % 16), hexDigit (n / 16 % 16), hexDigit (n % 16)]

/-- How `JSON.stringify` renders one code unit inside a string literal:
quote and backslash get a backslash escape, the named control characters
use their short escapes, the remaining control characters use a
`\u00..` escape, and every other unit is emitted literally.  (Lone
surrogates, which ES2019 engines also escape, are left literal here; no
claim involves them.) -/
def escapeUnit (c : Nat) : List Nat :=
  if c = 34 then [92, 34]
  else if c = 92 then [92, 92]
  else if c = 8 then [92, 98]
  else if c = 9 then [92, 116]
  else if c = 10 then [92, 110]
  else if c = 12 then [92, 102]
  else if c = 13 then [92, 114]
  else if c < 32 then 92 :: 117 :: hex4 c
  else [c]

/-- `JSON.stringify` on a string: surrounding quotes plus escaped units. -/
def quoteString (s : JsStr) : JsStr := 34 :: (s.flatMap escapeUnit ++ [34])

/-- Decimal digits of a natural number, least significant first.  The
first argument is recursion fuel; `natToDigitsRevAux n n` is exact because
a number never has more digits than its own magnitude. -/
def natToDigitsRevAux : Nat → Nat → List Nat
  | 0, _ => []
  | fuel + 1, n => if n = 0 then [] else (48 + n % 10) :: natToDigitsRevAux fuel (n / 10)

/-- Decimal notation of a natural number, ASCII code units. -/
def natToAscii (n : Nat) : JsStr :=
  if n = 0 then [48] else (natToDigitsRevAux n n).reverse

/-- Decimal notation of an integer, ASCII code units (JavaScript
`Number.prototype.toString` on an integral value). -/
def intToAscii (n : Int) : JsStr :=
  if n < 0 then 45 :: natToAscii n.natAbs else natToAscii n.toNat

mutual

/-- `jsonEncode` from `utils.js`, i.e. `JSON.stringify`, restricted to the
closed value type: structural JSON serialization with no added
whitespace. -/
def jsonEncode : JsonValue → JsStr
  | .jnull => strToCodes "null"
  | .jbool true => strToCodes "true"
  | .jbool false => strToCodes "false"
  | .jnum n => intToAscii n
  | .jstr s => quoteString s
  | .jobj fs => 123 :: (jsonEncodeFields fs ++ [125])
  | .jarr es => 91 :: (jsonEncodeElems es ++ [93])

/-- Comma-separated serialization of array elements. -/
def jsonEncodeElems : List JsonValue → JsStr
  | [] => []
  | [v] => jsonEncode v
  | v :: v' :: vs => jsonEncode v ++ 44 :: jsonEncodeElems (v' :: vs)

/-- Comma-separated serialization of object members. -/
def jsonEncodeFields : List (JsStr × JsonValue) → JsStr
  | [] => []
  | [(k, v)] => quoteString k ++ 58 :: jsonEncode v
  | (k, v) :: f :: fs => quoteString k ++ 58 :: jsonEncode v ++ 44 :: jsonEncodeFields (f :: fs)

end

example : jsonEncode (.jnum 12) = strToCodes "12" := by decide

example : jsonEncode (.jarr [.jnull, .jstr (strToCodes "a\"b")]) =
    strToCodes "[null,\"a\\\"b\"]" := by decide

example : jsonEncode (.jobj [(strToCodes "a", .jnum (-3))]) =
    strToCodes "\x7b\"a\":-3\x7d" := by decide

/-! ### The JSON parser (`jsonDecode`, i.e. `JSON.parse`)

`JSON.parse` is a host primitive; it is embedded as a recursive-descent
parser over code-unit lists, following the JSON grammar: optional
whitespace between tokens, the three literals, strings with the standard
escapes, arrays and objects.  Numbers are restricted to the integer part
of the grammar (no fraction or exponent), matching the integer-valued
number model above; no claim involves a non-integral number.  Failure of
`JSON.parse` (a thrown `SyntaxError`) is `none`. -/

/-- JSON insignificant whitespace: space, tab, line feed, carriage return. -/
def isWsCode (c : Nat) : Bool := c = 32 || c = 9 || c = 10 || c = 13

/-- Drop leading JSON whitespace. -/
def skipWs : JsStr → JsStr
  | [] => []
  | c :: rest => if isWsCode c then skipWs rest else c :: rest

/-- ASCII decimal digit test. -/
def isDigitCode (c : Nat) : Bool := 48 ≤ c && c ≤ 57

/-- Value of a hexadecimal digit code unit, if it is one. -/
def hexVal (c : Nat) : Option Nat :=
  if 48 ≤ c ∧ c ≤ 57 then some (c - 48)
  else if 97 ≤ c ∧ c ≤ 102 then some (c - 87)
  else if 65 ≤ c ∧ c ≤ 70 then some (c - 55)
  else none

/-- Consume a maximal run of decimal digits, accumulating their value. -/
def readDigits : JsStr → Nat → Nat × JsStr
  | [], acc => (acc, [])
  | c :: rest, acc =>
    if isDigitCode c then readDigits rest (acc * 10 + (c - 48)) else (acc, c :: rest)

/-- Parse a JSON number (integer grammar: optional minus, digit run).
The JSON rule forbidding leading zeros needs no dedicated check here: a
digit left behind after a parsed `0` makes the enclosing context fail,
exactly as `JSON.parse` does. -/
def parseNumber : JsStr → Option (Int × JsStr)
  | [] => none
  | c :: rest =>
    if c = 45 then
      match rest with
      | [] => none
      | c2 :: _ =>
        if isDigitCode c2 then
          let p := readDigits rest 0
          some (-(p.1 : Int), p.2)
        else none
    else if isDigitCode c then
      let p := readDigits (c :: rest) 0
      some ((p.1 : Int), p.2)
    else none

/-- Parse the body of a JSON string after its opening quote, handling the
standard escapes; raw control characters are a syntax error. -/
def parseStringBody : JsStr → Option (JsStr × JsStr)
  | [] => none
  | c :: rest =>
    if c = 34 then some ([], rest)
    else if c = 92 then
      match rest with
      | [] => none
      | e :: r =>
        if e = 34 then (parseStringBody r).map (fun p => (34 :: p.1, p.2))
        else if e = 92 then (parseStringBody r).map (fun p => (92 :: p.1, p.2))
        else if e = 47 then (parseStringBody r).map (fun p => (47 :: p.1, p.2))
        else if e = 98 then (parseStringBody r).map (fun p => (8 :: p.1, p.2))
        else if e = 102 then (parseStringBody r).map (fun p => (12 :: p.1, p.2))
        else if e = 110 then (parseStringBody r).map (fun p => (10 :: p.1, p.2))
        else if e = 114 then (parseStringBody r).map (fun p => (13 :: p.1, p.2))
        else if e = 116 then (parseStringBody r).map (fun p => (9 :: p.1, p.2))
        else if e = 117 then
          match r with
          | a :: b :: c2 :: d :: r2 =>
            match hexVal a, hexVal b, hexVal c2, hexVal d with
            | some x, some y, some z, some w =>
              (parseStringBody r2).map
                (fun p => ((x * 4096 + y * 256 + z * 16 + w) :: p.1, p.2))
            | _, _, _, _ => none
          | _ => none
        else none
    else if c < 32 then none
    else (parseStringBody rest).map (fun p => (c :: p.1, p.2))

/-- `JSON.parse` keeps the first occurrence position of a duplicated object
key but its last value: prepend a member to the members parsed after it
with that rule. -/
def consField (k : JsStr) (v : JsonValue) (tl : List (JsStr × JsonValue)) :
    List (JsStr × JsonValue) :=
  match tl.find? (fun p => decide (p.1 = k)) with
  | some p => (k, p.2) :: tl.filter (fun q => decide (q.1 ≠ k))
  | none => (k, v) :: tl

mutual

/-- Parse one JSON value (the first argument is recursion fuel; one unit
is spent per bracket nesting level, so any fuel beyond the input length
plus one is enough). -/
def parseVal : Nat → JsStr → Option (JsonValue × JsStr)
  | 0, _ => none
  | fuel + 1, input =>
    match skipWs input with
    | [] => none
    | c :: rest =>
      if c = 110 then
        match rest with
        | 117 :: 108 :: 108 :: r => some (.jnull, r)
        | _ => none
      else if c = 116 then
        match rest with
        | 114 :: 117 :: 101 :: r => some (.jbool true, r)
        | _ => none
      else if c = 102 then
        match rest with
        | 97 :: 108 :: 115 :: 101 :: r => some (.jbool false, r)
        | _ => none
      else if c = 34 then (parseStringBody rest).map (fun p => (.jstr p.1, p.2))
      else if c = 91 then
        match skipWs rest with
        | [] => (parseElems fuel rest).map (fun p => (.jarr p.1, p.2))
        | c2 :: rest2 =>
          if c2 = 93 then some (.jarr [], rest2)
          else (parseElems fuel rest).map (fun p => (.jarr p.1, p.2))
      else if c = 123 then
        match skipWs rest with
        | [] => (parseMembers fuel rest).map (fun p => (.jobj p.1, p.2))
        | c2 :: rest2 =>
          if c2 = 125 then some (.jobj [], rest2)
          else (parseMembers fuel rest).map (fun p => (.jobj p.1, p.2))
      else (parseNumber (c :: rest)).map (fun p => (.jnum p.1, p.2))

/-- Parse the elements of a non-empty array, consuming the closing
bracket. -/
def parseElems : Nat → JsStr → Option (List JsonValue × JsStr)
  | 0, _ => none
  | fuel + 1, input =>
    (parseVal fuel input).bind (fun p =>
      match skipWs p.2 with
      | [] => none
      | c :: rest =>
        if c = 44 then (parseElems fuel rest).map (fun q => (p.1 :: q.1, q.2))
        else if c = 93 then some ([p.1], rest)
        else none)

/-- Parse the members of a non-empty object, consuming the closing
brace. -/
def parseMembers : Nat → JsStr → Option (List (JsStr × JsonValue) × JsStr)
  | 0, _ => none
  | fuel + 1, input =>
    match skipWs input with
    | [] => none
    | c :: rest =>
      if c = 34 then
        (parseStringBody rest).bind (fun pk =>
          match skipWs pk.2 with
          | [] => none
          | c2 :: rest2 =>
            if c2 = 58 then
              (parseVal fuel rest2).bind (fun pv =>
                match skipWs pv.2 with
                | [] => none
                | c3 :: rest3 =>
                  if c3 = 44 then
                    (parseMembers fuel rest3).map
                      (fun q => (consField pk.1 pv.1 q.1, q.2))
                  else if c3 = 125 then some ([(pk.1, pv.1)], rest3)
                  else none)
            else none)
      else none

end

/-- `jsonDecode` from `utils.js`, i.e. `JSON.parse`: parse one value and
require only whitespace to remain. -/
def jsonDecode (s : JsStr) : Option JsonValue :=
  match parseVal (s.length + 1) s with
  | some (v, rest) => if skipWs rest = [] then some v else none
  | none => none

example : jsonDecode (strToCodes "[null,\"a\\\"b\",-12]") =
    some (.jarr [.jnull, .jstr (strToCodes "a\"b"), .jnum (-12)]) := by decide

example : jsonDecode (strToCodes " \x7b\"a\" : [ 1 , true ]\x7d ") =
    some (.jobj [(strToCodes "a", .jarr [.jnum 1, .jbool true])]) := by decide

/-- Code units that can begin a JSON value: an opening brace or bracket,
a quote, the first letter of `true`, `false` or `null`, a minus sign, or
a digit.  No production of the JSON grammar starts with anything else. -/
def jsonStartOk (c : Nat) : Bool :=
  c = 123 || c = 91 || c = 34 || c = 116 || c = 102 || c = 110 || c = 45 ||
    isDigitCode c

/-- A text that is empty up to whitespace, or whose first significant
character cannot begin a JSON value.  Every parser of the JSON grammar
rejects such a text at its first significant character — in particular
`JSON.parse` and `jsonDecode` agree on it, whatever their further
differences inside the number production. -/
def badJsonStart (s : JsStr) : Bool :=
  match skipWs s with
  | [] => true
  | c :: _ => !jsonStartOk c

example : badJsonStart (strToCodes "%corrupt%") = true := by decide

example : badJsonStart (strToCodes " [156.0]") = false := by decide

example : jsonDecode (strToCodes "not json") = none := by decide

example : jsonDecode (strToCodes "__NULL__") = none := by decide

example : jsonDecode (strToCodes "[1,2,") = none := by decide

/-! ### Round-trip of the codec -/

mutual

/-- Well-formedness of a modelled JSON value as a JavaScript runtime value:
string code units fit in UTF-16, numbers are exactly representable, and
object keys are distinct (a JavaScript object cannot hold two properties
with the same name). -/
def jvWF : JsonValue → Bool
  | .jnull => true
  | .jbool _ => true
  | .jnum n => decide (n.natAbs ≤ 2 ^ 53)
  | .jstr s => s.all (fun c => decide (c < 65536))
  | .jobj fs => jvWFFields fs
  | .jarr es => jvWFElems es

/-- Well-formedness of array elements. -/
def jvWFElems : List JsonValue → Bool
  | [] => true
  | v :: vs => jvWF v && jvWFElems vs

/-- Well-formedness of object members. -/
def jvWFFields : List (JsStr × JsonValue) → Bool
  | [] => true
  | (k, v) :: fs =>
    k.all (fun c => decide (c < 65536)) && fs.all (fun q => decide (q.1 ≠ k)) &&
      jvWF v && jvWFFields fs

end

mutual

/-- Fuel needed by `parseVal` to parse the serialization of `v`: one unit
per nesting level. -/
def needFuel : JsonValue → Nat
  | .jnull => 1
  | .jbool _ => 1
  | .jnum _ => 1
  | .jstr _ => 1
  | .jarr es => 1 + needFuelElems es
  | .jobj fs => 1 + needFuelFields fs

/-- Fuel needed by `parseElems` on serialized elements. -/
def needFuelElems : List JsonValue → Nat
  | [] => 0
  | v :: vs => 1 + max (needFuel v) (needFuelElems vs)

/-- Fuel needed by `parseMembers` on serialized members. -/
def needFuelFields : List (JsStr × JsonValue) → Nat
  | [] => 0
  | (_, v) :: fs => 1 + max (needFuel v) (needFuelFields fs)

end

/-- Does the input start with a decimal digit (which would extend a
preceding number token)? -/
def headIsDigit : JsStr → Bool
  | [] => false
  | c :: _ => isDigitCode c

theorem skipWs_cons_of_not_ws {c : Nat} (l : JsStr) (h : isWsCode c = false) :
    skipWs (c :: l) = c :: l := by
  simp [skipWs, h]

theorem readDigits_append (l rest : JsStr) (acc : Nat)
    (hl : ∀ c ∈ l, isDigitCode c = true) (hrest : headIsDigit rest = false) :
    readDigits (l ++ rest) acc = (l.foldl (fun a c => a * 10 + (c - 48)) acc, rest) := by
  induction l generalizing acc with
  | nil =>
    cases rest with
    | nil => simp [readDigits]
    | cons c r =>
      simp only [headIsDigit] at hrest
      simp [readDigits, hrest]
  | cons c l ih =>
    have hc : isDigitCode c = true := hl c (List.mem_cons_self c l)
    simp only [List.cons_append, readDigits, hc, if_true, List.foldl_cons]
    exact ih _ fun d hd => hl d (List.mem_cons_of_mem c hd)

theorem natToDigitsRevAux_foldr (fuel : Nat) :
    ∀ n acc, n ≤ fuel →
      List.foldr (fun c a => a * 10 + (c - 48)) acc (natToDigitsRevAux fuel n)
        = acc * 10 ^ (natToDigitsRevAux fuel n).length + n := by
  induction fuel with
  | zero =>
    intro n acc h
    interval_cases n
    simp [natToDigitsRevAux]
  | succ fuel ih =>
    intro n acc h
    by_cases hn : n = 0
    · simp [natToDigitsRevAux, hn]
    · have hdiv : n / 10 ≤ fuel := by omega
      simp only [natToDigitsRevAux, hn, if_false, List.foldr_cons, List.length_cons,
        ih (n / 10) acc hdiv]
      have h10 : 10 ^ (natToDigitsRevAux fuel (n / 10)).length * 10
          = 10 ^ ((natToDigitsRevAux fuel (n / 10)).length + 1) := by ring
      have : (48 + n % 10) - 48 = n % 10 := by omega
      rw [this, pow_succ]
      have := Nat.div_add_mod n 10
      ring_nf
      omega

theorem natToAscii_foldl (n : Nat) :
    (natToAscii n).foldl (fun a c => a * 10 + (c - 48)) 0 = n := by
  by_cases hn : n = 0
  · simp [natToAscii, hn]
  · simp only [natToAscii, hn, if_false, List.foldl_reverse]
    have := natToDigitsRevAux_foldr n n 0 (le_refl n)
    simpa using this

theorem natToDigitsRevAux_digits (fuel : Nat) :
    ∀ n c, c ∈ natToDigitsRevAux fuel n → isDigitCode c = true := by
  induction fuel with
  | zero => intro n c h; simp [natToDigitsRevAux] at h
  | succ fuel ih =>
    intro n c h
    by_cases hn : n = 0
    · simp [natToDigitsRevAux, hn] at h
    · simp only [natToDigitsRevAux, hn, if_false, List.mem_cons] at h
      rcases h with h | h
      · have : n % 10 < 10 := Nat.mod_lt n (by omega)
        subst h
        simp only [isDigitCode, Bool.and_eq_true, decide_eq_true_eq]
        omega
      · exact ih (n / 10) c h

theorem natToAscii_digits (n : Nat) : ∀ c ∈ natToAscii n, isDigitCode c = true := by
  intro c hc
  by_cases hn : n = 0
  · simp [natToAscii, hn] at hc
    subst hc
    decide
  · simp only [natToAscii, hn, if_false, List.mem_reverse] at hc
    exact natToDigitsRevAux_digits n n c hc

theorem natToAscii_ne_nil (n : Nat) : natToAscii n ≠ [] := by
  by_cases hn : n = 0
  · simp [natToAscii, hn]
  · obtain ⟨fuel, rfl⟩ : ∃ f, n = f + 1 := ⟨n - 1, by omega⟩
    simp [natToAscii, hn, natToDigitsRevAux]

theorem parseNumber_cons_digit (c : Nat) (rest : JsStr) (hc : isDigitCode c = true) :
    parseNumber (c :: rest)
      = some (((readDigits (c :: rest) 0).1 : Int), (readDigits (c :: rest) 0).2) := by
  have hc45 : c ≠ 45 := by
    simp only [isDigitCode, Bool.and_eq_true, decide_eq_true_eq] at hc
    omega
  simp [parseNumber, hc45, hc]

theorem parseNumber_neg_cons (c : Nat) (rest : JsStr) (hc : isDigitCode c = true) :
    parseNumber (45 :: c :: rest)
      = some (-((readDigits (c :: rest) 0).1 : Int), (readDigits (c :: rest) 0).2) := by
  simp [parseNumber, hc]

theorem parseNumber_encode (n : Int) (rest : JsStr) (hrest : headIsDigit rest = false) :
    parseNumber (intToAscii n ++ rest) = some (n, rest) := by
  have key : ∀ m : Nat, readDigits (natToAscii m ++ rest) 0 = (m, rest) := fun m => by
    rw [readDigits_append _ _ _ (natToAscii_digits m) hrest, natToAscii_foldl]
  by_cases hneg : n < 0
  · simp only [intToAscii, hneg, if_true, List.cons_append]
    obtain ⟨c, t, ht⟩ : ∃ c t, natToAscii n.natAbs = c :: t := by
      cases h : natToAscii n.natAbs with
      | nil => exact absurd h (natToAscii_ne_nil _)
      | cons c t => exact ⟨c, t, rfl⟩
    have hc : isDigitCode c = true :=
      natToAscii_digits _ c (by rw [ht]; exact List.mem_cons_self c t)
    have hread : readDigits (c :: (t ++ rest)) 0 = (n.natAbs, rest) := by
      have := key n.natAbs
      rw [ht] at this
      simpa using this
    rw [ht, List.cons_append, parseNumber_neg_cons c (t ++ rest) hc, hread]
    have : -((n.natAbs : Nat) : Int) = n := by omega
    rw [this]
  · obtain ⟨c, t, ht⟩ : ∃ c t, natToAscii n.toNat = c :: t := by
      cases h : natToAscii n.toNat with
      | nil => exact absurd h (natToAscii_ne_nil _)
      | cons c t => exact ⟨c, t, rfl⟩
    have hc : isDigitCode c = true :=
      natToAscii_digits _ c (by rw [ht]; exact List.mem_cons_self c t)
    have hread : readDigits (c :: (t ++ rest)) 0 = (n.toNat, rest) := by
      have := key n.toNat
      rw [ht] at this
      simpa using this
    rw [intToAscii, if_neg hneg, ht, List.cons_append,
      parseNumber_cons_digit c (t ++ rest) hc, hread]
    have : ((n.toNat : Nat) : Int) = n := by omega
    rw [this]

theorem hexVal_hexDigit (x : Nat) (h : x < 16) : hexVal (hexDigit x) = some x := by
  by_cases h10 : x < 10
  · simp only [hexDigit, h10, if_true, hexVal]
    rw [if_pos (by omega)]
    simp
  · simp only [hexDigit, h10, if_false, hexVal]
    rw [if_neg (by omega), if_pos (by omega)]
    simp only [Option.some.injEq]
    omega

theorem parseStringBody_encode (s : JsStr) (rest : JsStr) :
    parseStringBody (s.flatMap escapeUnit ++ (34 :: rest)) = some (s, rest) := by
  induction s with
  | nil =>
    rw [List.flatMap_nil, List.nil_append, parseStringBody.eq_def]
    simp
  | cons c s ih =>
    rw [List.flatMap_cons, List.append_assoc]
    by_cases h34 : c = 34
    · subst h34
      rw [show escapeUnit 34 = [92, 34] from rfl]
      simp only [List.cons_append, List.nil_append]
      rw [parseStringBody.eq_def]
      simp [ih]
    · by_cases h92 : c = 92
      · subst h92
        rw [show escapeUnit 92 = [92, 92] from rfl]
        simp only [List.cons_append, List.nil_append]
        rw [parseStringBody.eq_def]
        simp [ih]
      · by_cases hctl : c < 32
        · by_cases h8 : c = 8
          · subst h8
            rw [show escapeUnit 8 = [92, 98] from rfl]
            simp only [List.cons_append, List.nil_append]
            rw [parseStringBody.eq_def]
            simp [ih]
          · by_cases h9 : c = 9
            · subst h9
              rw [show escapeUnit 9 = [92, 116] from rfl]
              simp only [List.cons_append, List.nil_append]
              rw [parseStringBody.eq_def]
              simp [ih]
            · by_cases h10 : c = 10
              · subst h10
                rw [show escapeUnit 10 = [92, 110] from rfl]
                simp only [List.cons_append, List.nil_append]
                rw [parseStringBody.eq_def]
                simp [ih]
              · by_cases h12 : c = 12
                · subst h12
                  rw [show escapeUnit 12 = [92, 102] from rfl]
                  simp only [List.cons_append, List.nil_append]
                  rw [parseStringBody.eq_def]
                  simp [ih]
                · by_cases h13 : c = 13
                  · subst h13
                    rw [show escapeUnit 13 = [92, 114] from rfl]
                    simp only [List.cons_append, List.nil_append]
                    rw [parseStringBody.eq_def]
                    simp [ih]
                  · have henc : escapeUnit c = 92 :: 117 :: hex4 c := by
                      simp [escapeUnit, h34, h92, h8, h9, h10, h12, h13, hctl]
                    rw [henc]
                    have hx : c / 4096 % 16 < 16 := Nat.mod_lt _ (by omega)
                    have hy : c / 256 % 16 < 16 := Nat.mod_lt _ (by omega)
                    have hz : c / 16 % 16 < 16 := Nat.mod_lt _ (by omega)
                    have hw : c % 16 < 16 := Nat.mod_lt _ (by omega)
                    simp only [hex4, List.cons_append, List.nil_append]
                    rw [parseStringBody.eq_def]
                    simp only [hexVal_hexDigit _ hx, hexVal_hexDigit _ hy,
                      hexVal_hexDigit _ hz, hexVal_hexDigit _ hw, ih]
                    norm_num
                    omega
        · have henc : escapeUnit c = [c] := by
            rw [escapeUnit, if_neg h34, if_neg h92, if_neg (by omega), if_neg (by omega),
              if_neg (by omega), if_neg (by omega), if_neg (by omega), if_neg hctl]
          rw [henc]
          simp only [List.cons_append, List.nil_append]
          rw [parseStringBody.eq_def]
          simp [h34, h92, hctl, ih]

@[simp] theorem jsonEncode_jnull : jsonEncode .jnull = [110, 117, 108, 108] := by decide

@[simp] theorem jsonEncode_jtrue : jsonEncode (.jbool true) = [116, 114, 117, 101] := by decide

@[simp] theorem jsonEncode_jfalse :
    jsonEncode (.jbool false) = [102, 97, 108, 115, 101] := by decide

@[simp] theorem jsonEncode_jnum (n : Int) : jsonEncode (.jnum n) = intToAscii n := by
  rw [jsonEncode.eq_def]

@[simp] theorem jsonEncode_jstr (s : JsStr) : jsonEncode (.jstr s) = quoteString s := by
  rw [jsonEncode.eq_def]

@[simp] theorem jsonEncode_jarr (es : List JsonValue) :
    jsonEncode (.jarr es) = 91 :: (jsonEncodeElems es ++ [93]) := by
  rw [jsonEncode.eq_def]

@[simp] theorem jsonEncode_jobj (fs : List (JsStr × JsonValue)) :
    jsonEncode (.jobj fs) = 123 :: (jsonEncodeFields fs ++ [125]) := by
  rw [jsonEncode.eq_def]

@[simp] theorem jsonEncodeElems_single (v : JsonValue) : jsonEncodeElems [v] = jsonEncode v := by
  rw [jsonEncodeElems.eq_def]

@[simp] theorem jsonEncodeElems_cons2 (v v' : JsonValue) (vs : List JsonValue) :
    jsonEncodeElems (v :: v' :: vs) = jsonEncode v ++ 44 :: jsonEncodeElems (v' :: vs) := by
  rw [jsonEncodeElems.eq_def]

@[simp] theorem jsonEncodeFields_single (k : JsStr) (v : JsonValue) :
    jsonEncodeFields [(k, v)] = quoteString k ++ 58 :: jsonEncode v := by
  rw [jsonEncodeFields.eq_def]

@[simp] theorem jsonEncodeFields_cons2 (k : JsStr) (v : JsonValue) (f : JsStr × JsonValue)
    (fs : List (JsStr × JsonValue)) :
    jsonEncodeFields ((k, v) :: f :: fs)
      = quoteString k ++ 58 :: jsonEncode v ++ 44 :: jsonEncodeFields (f :: fs) := by
  rw [jsonEncodeFields.eq_def]

@[simp] theorem jvWF_jnum (n : Int) : jvWF (.jnum n) = decide (n.natAbs ≤ 2 ^ 53) := by
  rw [jvWF.eq_def]

@[simp] theorem jvWF_jstr (s : JsStr) :
    jvWF (.jstr s) = s.all (fun c => decide (c < 65536)) := by
  rw [jvWF.eq_def]

@[simp] theorem jvWF_jarr (es : List JsonValue) : jvWF (.jarr es) = jvWFElems es := by
  rw [jvWF.eq_def]

@[simp] theorem jvWF_jobj (fs : List (JsStr × JsonValue)) : jvWF (.jobj fs) = jvWFFields fs := by
  rw [jvWF.eq_def]

@[simp] theorem jvWFElems_cons (v : JsonValue) (vs : List JsonValue) :
    jvWFElems (v :: vs) = (jvWF v && jvWFElems vs) := by
  rw [jvWFElems.eq_def]

@[simp] theorem jvWFFields_cons (k : JsStr) (v : JsonValue) (fs : List (JsStr × JsonValue)) :
    jvWFFields ((k, v) :: fs)
      = (k.all (fun c => decide (c < 65536)) && fs.all (fun q => decide (q.1 ≠ k)) &&
          jvWF v && jvWFFields fs) := by
  rw [jvWFFields.eq_def]

@[simp] theorem needFuel_jarr (es : List JsonValue) :
    needFuel (.jarr es) = 1 + needFuelElems es := by
  rw [needFuel.eq_def]

@[simp] theorem needFuel_jobj (fs : List (JsStr × JsonValue)) :
    needFuel (.jobj fs) = 1 + needFuelFields fs := by
  rw [needFuel.eq_def]

@[simp] theorem needFuelElems_cons (v : JsonValue) (vs : List JsonValue) :
    needFuelElems (v :: vs) = 1 + max (needFuel v) (needFuelElems vs) := by
  rw [needFuelElems.eq_def]

@[simp] theorem needFuelFields_cons (k : JsStr) (v : JsonValue) (fs : List (JsStr × JsonValue)) :
    needFuelFields ((k, v) :: fs) = 1 + max (needFuel v) (needFuelFields fs) := by
  rw [needFuelFields.eq_def]

/-- The first code unit of any serialized JSON value: never whitespace and
never a closing delimiter or separator. -/
theorem jsonEncode_head (v : JsonValue) :
    ∃ c t, jsonEncode v = c :: t ∧ isWsCode c = false ∧ c ≠ 93 ∧ c ≠ 125 ∧ c ≠ 44 ∧ c ≠ 58 := by
  cases v with
  | jnull =>
    exact ⟨110, [117, 108, 108], by simp, by decide, by decide, by decide, by decide, by decide⟩
  | jbool b =>
    cases b with
    | true =>
      exact ⟨116, [114, 117, 101], by simp, by decide, by decide, by decide, by decide, by decide⟩
    | false =>
      exact ⟨102, [97, 108, 115, 101], by simp, by decide, by decide, by decide, by decide,
        by decide⟩
  | jstr s =>
    exact ⟨34, s.flatMap escapeUnit ++ [34], by simp [quoteString], by decide, by decide,
      by decide, by decide, by decide⟩
  | jarr es =>
    exact ⟨91, jsonEncodeElems es ++ [93], by simp, by decide, by decide, by decide, by decide,
      by decide⟩
  | jobj fs =>
    exact ⟨123, jsonEncodeFields fs ++ [125], by simp, by decide, by decide, by decide,
      by decide, by decide⟩
  | jnum n =>
    by_cases hneg : n < 0
    · exact ⟨45, natToAscii n.natAbs, by simp [intToAscii, hneg], by decide, by decide,
        by decide, by decide, by decide⟩
    · obtain ⟨c, t, ht⟩ : ∃ c t, natToAscii n.toNat = c :: t := by
        cases h : natToAscii n.toNat with
        | nil => exact absurd h (natToAscii_ne_nil _)
        | cons c t => exact ⟨c, t, rfl⟩
      have hc : isDigitCode c = true :=
        natToAscii_digits _ c (by rw [ht]; exact List.mem_cons_self c t)
      have hrange : 48 ≤ c ∧ c ≤ 57 := by
        simpa [isDigitCode] using hc
      have henc : jsonEncode (.jnum n) = c :: t := by
        rw [jsonEncode_jnum, intToAscii, if_neg hneg, ht]
      have hws : isWsCode c = false := by
        simp only [isWsCode, Bool.or_eq_false_iff, decide_eq_false_iff_not]
        omega
      exact ⟨c, t, henc, hws, by omega, by omega, by omega, by omega⟩

/-- A digit or minus sign falls through every keyword / punctuation test in
`parseVal`. -/
theorem numStart_ne (c : Nat) (hc : c = 45 ∨ isDigitCode c = true) :
    isWsCode c = false ∧ c ≠ 110 ∧ c ≠ 116 ∧ c ≠ 102 ∧ c ≠ 34 ∧ c ≠ 91 ∧ c ≠ 123 := by
  rcases hc with rfl | hc
  · refine ⟨by decide, by decide, by decide, by decide, by decide, by decide, by decide⟩
  · have hrange : 48 ≤ c ∧ c ≤ 57 := by simpa [isDigitCode] using hc
    have hws : isWsCode c = false := by
      simp only [isWsCode, Bool.or_eq_false_iff, decide_eq_false_iff_not]
      omega
    exact ⟨hws, by omega, by omega, by omega, by omega, by omega, by omega⟩

/-- The head of a serialized integer is a minus sign or a digit. -/
theorem intToAscii_head (n : Int) :
    ∃ c t, intToAscii n = c :: t ∧ (c = 45 ∨ isDigitCode c = true) := by
  by_cases hneg : n < 0
  · exact ⟨45, natToAscii n.natAbs, by simp [intToAscii, hneg], Or.inl rfl⟩
  · obtain ⟨c, t, ht⟩ : ∃ c t, natToAscii n.toNat = c :: t := by
      cases h : natToAscii n.toNat with
      | nil => exact absurd h (natToAscii_ne_nil _)
      | cons c t => exact ⟨c, t, rfl⟩
    exact ⟨c, t, by simp [intToAscii, hneg, ht],
      Or.inr (natToAscii_digits _ c (by rw [ht]; exact List.mem_cons_self c t))⟩

theorem consField_of_fresh (k : JsStr) (v : JsonValue) (tl : List (JsStr × JsonValue))
    (h : ∀ q ∈ tl, q.1 ≠ k) : consField k v tl = (k, v) :: tl := by
  have hfind : tl.find? (fun p => decide (p.1 = k)) = none := by
    rw [List.find?_eq_none]
    intro x hx
    simp [h x hx]
  simp [consField, hfind]

@[simp] theorem skipWs_nil : skipWs [] = [] := by rw [skipWs.eq_def]

@[simp] theorem skipWs_cons (c : Nat) (l : JsStr) :
    skipWs (c :: l) = if isWsCode c then skipWs l else c :: l := by
  rw [skipWs.eq_def]

@[simp] theorem headIsDigit_nil : headIsDigit [] = false := by rw [headIsDigit.eq_def]

@[simp] theorem headIsDigit_cons (c : Nat) (l : JsStr) :
    headIsDigit (c :: l) = isDigitCode c := by
  rw [headIsDigit.eq_def]

@[simp] theorem needFuel_jnull : needFuel .jnull = 1 := by rw [needFuel.eq_def]

@[simp] theorem needFuel_jbool (b : Bool) : needFuel (.jbool b) = 1 := by rw [needFuel.eq_def]

@[simp] theorem needFuel_jnum (n : Int) : needFuel (.jnum n) = 1 := by rw [needFuel.eq_def]

@[simp] theorem needFuel_jstr (s : JsStr) : needFuel (.jstr s) = 1 := by rw [needFuel.eq_def]

@[simp] theorem needFuelElems_nil : needFuelElems [] = 0 := by rw [needFuelElems.eq_def]

@[simp] theorem needFuelFields_nil : needFuelFields [] = 0 := by rw [needFuelFields.eq_def]

@[simp] theorem jsonEncodeElems_nil : jsonEncodeElems [] = [] := by rw [jsonEncodeElems.eq_def]

@[simp] theorem jsonEncodeFields_nil : jsonEncodeFields [] = [] := by
  rw [jsonEncodeFields.eq_def]

@[simp] theorem jvWF_jnull : jvWF .jnull = true := by rw [jvWF.eq_def]

@[simp] theorem jvWF_jbool (b : Bool) : jvWF (.jbool b) = true := by rw [jvWF.eq_def]

@[simp] theorem jvWFElems_nil : jvWFElems [] = true := by rw [jvWFElems.eq_def]

@[simp] theorem jvWFFields_nil : jvWFFields [] = true := by rw [jvWFFields.eq_def]

theorem parseVal_succ (f : Nat) (input : JsStr) :
    parseVal (f + 1) input =
      match skipWs input with
      | [] => none
      | c :: rest =>
        if c = 110 then
          match rest with
          | 117 :: 108 :: 108 :: r => some (.jnull, r)
          | _ => none
        else if c = 116 then
          match rest with
          | 114 :: 117 :: 101 :: r => some (.jbool true, r)
          | _ => none
        else if c = 102 then
          match rest with
          | 97 :: 108 :: 115 :: 101 :: r => some (.jbool false, r)
          | _ => none
        else if c = 34 then (parseStringBody rest).map (fun p => (.jstr p.1, p.2))
        else if c = 91 then
          match skipWs rest with
          | [] => (parseElems f rest).map (fun p => (.jarr p.1, p.2))
          | c2 :: rest2 =>
            if c2 = 93 then some (.jarr [], rest2)
            else (parseElems f rest).map (fun p => (.jarr p.1, p.2))
        else if c = 123 then
          match skipWs rest with
          | [] => (parseMembers f rest).map (fun p => (.jobj p.1, p.2))
          | c2 :: rest2 =>
            if c2 = 125 then some (.jobj [], rest2)
            else (parseMembers f rest).map (fun p => (.jobj p.1, p.2))
        else (parseNumber (c :: rest)).map (fun p => (.jnum p.1, p.2)) := by
  rw [parseVal.eq_def]

theorem parseElems_succ (f : Nat) (input : JsStr) :
    parseElems (f + 1) input =
      (parseVal f input).bind (fun p =>
        match skipWs p.2 with
        | [] => none
        | c :: rest =>
          if c = 44 then (parseElems f rest).map (fun q => (p.1 :: q.1, q.2))
          else if c = 93 then some ([p.1], rest)
          else none) := by
  rw [parseElems.eq_def]

theorem parseMembers_succ (f : Nat) (input : JsStr) :
    parseMembers (f + 1) input =
      match skipWs input with
      | [] => none
      | c :: rest =>
        if c = 34 then
          (parseStringBody rest).bind (fun pk =>
            match skipWs pk.2 with
            | [] => none
            | c2 :: rest2 =>
              if c2 = 58 then
                (parseVal f rest2).bind (fun pv =>
                  match skipWs pv.2 with
                  | [] => none
                  | c3 :: rest3 =>
                    if c3 = 44 then
                      (parseMembers f rest3).map
                        (fun q => (consField pk.1 pv.1 q.1, q.2))
                    else if c3 = 125 then some ([(pk.1, pv.1)], rest3)
                    else none)
              else none)
        else none := by
  rw [parseMembers.eq_def]

/-- The serialization of a non-empty element list starts like the
serialization of its first element. -/
theorem jsonEncodeElems_head (e : JsonValue) (es : List JsonValue) :
    ∃ c t, jsonEncodeElems (e :: es) = c :: t ∧ isWsCode c = false ∧ c ≠ 93 := by
  obtain ⟨c, t, ht, hws, h93, _⟩ := jsonEncode_head e
  cases es with
  | nil => exact ⟨c, t, by rw [jsonEncodeElems_single, ht], hws, h93⟩
  | cons e' es =>
    exact ⟨c, t ++ 44 :: jsonEncodeElems (e' :: es), by rw [jsonEncodeElems_cons2, ht]; rfl,
      hws, h93⟩

mutual

theorem parseVal_encode : ∀ (v : JsonValue) (fuel : Nat) (rest : JsStr),
    needFuel v ≤ fuel → jvWF v = true → headIsDigit rest = false →
    parseVal fuel (jsonEncode v ++ rest) = some (v, rest)
  | .jnull, fuel, rest, hfuel, _, _ => by
    rw [needFuel_jnull] at hfuel
    obtain ⟨f, rfl⟩ : ∃ f, fuel = f + 1 := ⟨fuel - 1, by omega⟩
    rw [jsonEncode_jnull, parseVal.eq_def]
    simp [isWsCode]
  | .jbool true, fuel, rest, hfuel, _, _ => by
    rw [needFuel_jbool] at hfuel
    obtain ⟨f, rfl⟩ : ∃ f, fuel = f + 1 := ⟨fuel - 1, by omega⟩
    rw [jsonEncode_jtrue, parseVal.eq_def]
    simp [isWsCode]
  | .jbool false, fuel, rest, hfuel, _, _ => by
    rw [needFuel_jbool] at hfuel
    obtain ⟨f, rfl⟩ : ∃ f, fuel = f + 1 := ⟨fuel - 1, by omega⟩
    rw [jsonEncode_jfalse, parseVal.eq_def]
    simp [isWsCode]
  | .jnum n, fuel, rest, hfuel, _, hrest => by
    rw [needFuel_jnum] at hfuel
    obtain ⟨f, rfl⟩ : ∃ f, fuel = f + 1 := ⟨fuel - 1, by omega⟩
    rw [jsonEncode_jnum]
    obtain ⟨c, t, ht, hc⟩ := intToAscii_head n
    obtain ⟨hws, h110, h116, h102, h34, h91, h123⟩ := numStart_ne c hc
    rw [ht, List.cons_append, parseVal.eq_def]
    simp only [skipWs_cons, hws, Bool.false_eq_true, if_false]
    simp only [h110, h116, h102, h34, h91, h123, if_false]
    rw [← List.cons_append, ← ht, parseNumber_encode n rest hrest]
    rfl
  | .jstr s, fuel, rest, hfuel, _, _ => by
    rw [needFuel_jstr] at hfuel
    obtain ⟨f, rfl⟩ : ∃ f, fuel = f + 1 := ⟨fuel - 1, by omega⟩
    rw [jsonEncode_jstr, quoteString, List.cons_append, List.append_assoc, parseVal.eq_def]
    simp [isWsCode, parseStringBody_encode s rest]
  | .jarr [], fuel, rest, hfuel, _, _ => by
    rw [needFuel_jarr, needFuelElems_nil] at hfuel
    obtain ⟨f, rfl⟩ : ∃ f, fuel = f + 1 := ⟨fuel - 1, by omega⟩
    rw [jsonEncode_jarr, jsonEncodeElems_nil, parseVal.eq_def]
    simp [isWsCode]
  | .jarr (e :: es), fuel, rest, hfuel, hwf, _ => by
    rw [needFuel_jarr] at hfuel
    obtain ⟨f, rfl⟩ : ∃ f, fuel = f + 1 := ⟨fuel - 1, by omega⟩
    have hfe : needFuelElems (e :: es) ≤ f := by omega
    rw [jvWF_jarr] at hwf
    obtain ⟨c, t, ht, hws, h93⟩ := jsonEncodeElems_head e es
    rw [jsonEncode_jarr, List.cons_append, List.append_assoc, List.singleton_append,
      parseVal_succ, skipWs_cons_of_not_ws _ (by decide), ht, List.cons_append]
    norm_num
    rw [hws]
    simp only [Bool.false_eq_true, if_false, h93]
    rw [← List.cons_append, ← ht, parseElems_encode (e :: es) f rest (by simp) hfe hwf]
    rfl
  | .jobj [], fuel, rest, hfuel, _, _ => by
    rw [needFuel_jobj, needFuelFields_nil] at hfuel
    obtain ⟨f, rfl⟩ : ∃ f, fuel = f + 1 := ⟨fuel - 1, by omega⟩
    rw [jsonEncode_jobj, jsonEncodeFields_nil, parseVal.eq_def]
    simp [isWsCode]
  | .jobj ((k, v) :: fs), fuel, rest, hfuel, hwf, _ => by
    rw [needFuel_jobj] at hfuel
    obtain ⟨f, rfl⟩ : ∃ f, fuel = f + 1 := ⟨fuel - 1, by omega⟩
    have hff : needFuelFields ((k, v) :: fs) ≤ f := by omega
    rw [jvWF_jobj] at hwf
    have hfirst : ∃ t, jsonEncodeFields ((k, v) :: fs) = 34 :: t := by
      cases fs with
      | nil =>
        exact ⟨k.flatMap escapeUnit ++ [34] ++ 58 :: jsonEncode v,
          by rw [jsonEncodeFields_single, quoteString]; simp⟩
      | cons f2 fs2 =>
        exact ⟨k.flatMap escapeUnit ++ [34] ++ 58 :: jsonEncode v ++
          44 :: jsonEncodeFields (f2 :: fs2),
          by rw [jsonEncodeFields_cons2, quoteString]; simp⟩
    obtain ⟨t, ht⟩ := hfirst
    rw [jsonEncode_jobj, List.cons_append, List.append_assoc, List.singleton_append,
      parseVal_succ, skipWs_cons_of_not_ws _ (by decide), ht, List.cons_append]
    norm_num
    rw [show isWsCode 34 = false from rfl]
    norm_num
    rw [← List.cons_append, ← ht, parseMembers_encode ((k, v) :: fs) f rest (by simp) hff hwf]

theorem parseElems_encode : ∀ (es : List JsonValue) (fuel : Nat) (rest : JsStr),
    es ≠ [] → needFuelElems es ≤ fuel → jvWFElems es = true →
    parseElems fuel (jsonEncodeElems es ++ (93 :: rest)) = some (es, rest)
  | [], _, _, h, _, _ => absurd rfl h
  | [v], fuel, rest, _, hfuel, hwf => by
    rw [needFuelElems_cons, needFuelElems_nil] at hfuel
    obtain ⟨f, rfl⟩ : ∃ f, fuel = f + 1 := ⟨fuel - 1, by omega⟩
    have hfv : needFuel v ≤ f := by omega
    have hwfv : jvWF v = true := by
      rw [jvWFElems_cons, jvWFElems_nil] at hwf
      simpa using hwf
    rw [jsonEncodeElems_single, parseElems_succ,
      parseVal_encode v f (93 :: rest) hfv hwfv (by simp [isDigitCode])]
    simp [isWsCode]
  | v :: v' :: vs, fuel, rest, _, hfuel, hwf => by
    rw [needFuelElems_cons] at hfuel
    obtain ⟨f, rfl⟩ : ∃ f, fuel = f + 1 := ⟨fuel - 1, by omega⟩
    have hfv : needFuel v ≤ f := by omega
    have hfvs : needFuelElems (v' :: vs) ≤ f := by omega
    rw [jvWFElems_cons] at hwf
    have hwfv : jvWF v = true := by
      simp only [Bool.and_eq_true] at hwf
      exact hwf.1
    have hwfvs : jvWFElems (v' :: vs) = true := by
      simp only [Bool.and_eq_true] at hwf
      exact hwf.2
    rw [jsonEncodeElems_cons2, parseElems_succ, List.append_assoc, List.cons_append,
      parseVal_encode v f (44 :: (jsonEncodeElems (v' :: vs) ++ 93 :: rest)) hfv hwfv
        (by simp [isDigitCode]),
      Option.some_bind]
    rw [skipWs_cons_of_not_ws _ (by decide)]
    norm_num
    rw [parseElems_encode (v' :: vs) f rest (by simp) hfvs hwfvs]

theorem parseMembers_encode : ∀ (fs : List (JsStr × JsonValue)) (fuel : Nat) (rest : JsStr),
    fs ≠ [] → needFuelFields fs ≤ fuel → jvWFFields fs = true →
    parseMembers fuel (jsonEncodeFields fs ++ (125 :: rest)) = some (fs, rest)
  | [], _, _, h, _, _ => absurd rfl h
  | [(k, v)], fuel, rest, _, hfuel, hwf => by
    rw [needFuelFields_cons, needFuelFields_nil] at hfuel
    obtain ⟨f, rfl⟩ : ∃ f, fuel = f + 1 := ⟨fuel - 1, by omega⟩
    have hfv : needFuel v ≤ f := by omega
    have hwfv : jvWF v = true := by
      rw [jvWFFields_cons, jvWFFields_nil] at hwf
      simp only [Bool.and_eq_true] at hwf
      exact hwf.1.2
    rw [jsonEncodeFields_single, quoteString, parseMembers_succ]
    simp only [List.cons_append, List.append_assoc, List.singleton_append]
    rw [skipWs_cons_of_not_ws _ (by decide)]
    norm_num
    rw [parseStringBody_encode k (58 :: (jsonEncode v ++ 125 :: rest)), Option.some_bind]
    rw [skipWs_cons_of_not_ws _ (by decide)]
    norm_num
    rw [parseVal_encode v f (125 :: rest) hfv hwfv (by simp [isDigitCode]), Option.some_bind]
    rw [skipWs_cons_of_not_ws _ (by decide)]
    norm_num
  | (k, v) :: f2 :: fs2, fuel, rest, _, hfuel, hwf => by
    rw [needFuelFields_cons] at hfuel
    obtain ⟨f, rfl⟩ : ∃ f, fuel = f + 1 := ⟨fuel - 1, by omega⟩
    have hfv : needFuel v ≤ f := by omega
    have hffs : needFuelFields (f2 :: fs2) ≤ f := by omega
    rw [jvWFFields_cons] at hwf
    simp only [Bool.and_eq_true] at hwf
    have hwfv : jvWF v = true := hwf.1.2
    have hwffs : jvWFFields (f2 :: fs2) = true := hwf.2
    have hfresh : ∀ q ∈ f2 :: fs2, q.1 ≠ k := by
      have := hwf.1.1.2
      intro q hq
      have := List.all_eq_true.mp this q hq
      simpa using this
    rw [jsonEncodeFields_cons2, quoteString, parseMembers_succ]
    simp only [List.cons_append, List.append_assoc, List.singleton_append]
    rw [skipWs_cons_of_not_ws _ (by decide)]
    norm_num
    rw [parseStringBody_encode k (58 :: (jsonEncode v ++
      (44 :: (jsonEncodeFields (f2 :: fs2) ++ 125 :: rest)))), Option.some_bind]
    rw [skipWs_cons_of_not_ws _ (by decide)]
    norm_num
    rw [parseVal_encode v f (44 :: (jsonEncodeFields (f2 :: fs2) ++ 125 :: rest)) hfv hwfv
      (by simp [isDigitCode]), Option.some_bind]
    rw [skipWs_cons_of_not_ws _ (by decide)]
    norm_num
    rw [parseMembers_encode (f2 :: fs2) f rest (by simp) hffs hwffs]
    simp [consField_of_fresh k v (f2 :: fs2) hfresh]

end

mutual

theorem needFuel_le : ∀ v : JsonValue, needFuel v ≤ (jsonEncode v).length + 1
  | .jnull => by simp
  | .jbool true => by simp
  | .jbool false => by simp
  | .jnum n => by
    simp only [needFuel_jnum]
    omega
  | .jstr s => by
    simp only [needFuel_jstr]
    omega
  | .jarr es => by
    have h := needFuelElems_le es
    simp only [needFuel_jarr, jsonEncode_jarr, List.length_cons, List.length_append]
    omega
  | .jobj fs => by
    have h := needFuelFields_le fs
    simp only [needFuel_jobj, jsonEncode_jobj, List.length_cons, List.length_append]
    omega

theorem needFuelElems_le :
    ∀ es : List JsonValue, needFuelElems es ≤ (jsonEncodeElems es).length + 2
  | [] => by simp
  | [v] => by
    have h := needFuel_le v
    simp only [needFuelElems_cons, needFuelElems_nil, jsonEncodeElems_single]
    omega
  | v :: v' :: vs => by
    have h1 := needFuel_le v
    have h2 := needFuelElems_le (v' :: vs)
    rw [needFuelElems_cons v (v' :: vs), jsonEncodeElems_cons2 v v' vs]
    simp only [List.length_append, List.length_cons]
    omega

theorem needFuelFields_le :
    ∀ fs : List (JsStr × JsonValue), needFuelFields fs ≤ (jsonEncodeFields fs).length + 2
  | [] => by simp
  | [(k, v)] => by
    have h := needFuel_le v
    simp only [needFuelFields_cons, needFuelFields_nil, jsonEncodeFields_single,
      List.length_append, List.length_cons]
    omega
  | (k, v) :: f2 :: fs2 => by
    have h1 := needFuel_le v
    have h2 := needFuelFields_le (f2 :: fs2)
    rw [needFuelFields_cons k v (f2 :: fs2), jsonEncodeFields_cons2 k v f2 fs2]
    simp only [List.length_append, List.length_cons]
    omega

end

/-- The codec round-trip: `JSON.parse` inverts `JSON.stringify` on every
well-formed value. -/
theorem jsonDecode_jsonEncode (v : JsonValue) (h : jvWF v = true) :
    jsonDecode (jsonEncode v) = some v := by
  have h2 := parseVal_encode v ((jsonEncode v).length + 1) [] (needFuel_le v) h (by simp)
  rw [List.append_nil] at h2
  simp [jsonDecode, h2]

/-! ### The obfuscation transform (`crypto.js`: `encrypt` / `decrypt`) -/

/-- The sentinel string the transform uses for null and undefined. -/
def nullSentinel : JsStr := strToCodes "__NULL__"

/-- `key.charCodeAt(i % key.length)` as the source computes it: for a
non-empty key the offset is in range and yields that code unit; for the
empty key `i % 0` is `NaN` and `charCodeAt(NaN)` on the empty string is
`NaN` (`none`). -/
def keyCodeAt (key : JsStr) (i : Nat) : Option Nat :=
  if key.length = 0 then none
  else some (key.getD (i % key.length) 0)

/-- The shifted codes of the serialized plaintext, starting at index `i`:
entry `j` is `plain[j] + key[(i + j) % key.length]`; with an empty key
every entry is `NaN` (`none`). -/
def shiftCodes (plain : JsStr) (key : JsStr) (i : Nat) : List (Option Nat) :=
  match plain with
  | [] => []
  | c :: rest => ((keyCodeAt key i).map (fun kc => c + kc)) :: shiftCodes rest key (i + 1)

/-- A shifted code as the JSON value `JSON.stringify` will render: a
number, or `null` for `NaN`. -/
def shiftedToJson (oc : Option Nat) : JsonValue :=
  match oc with
  | some n => .jnum (n : Int)
  | none => .jnull

/-- `encrypt(value, key)` from `crypto.js`: null and undefined (`none`)
become the sentinel with no transform applied; any other value is
JSON-serialized, each code unit is shifted by the matching key unit, and
the resulting number array is JSON-serialized (a `NaN` entry, which arises
exactly when the key is empty, prints as `null`). -/
def encrypt (value : Option JsonValue) (key : JsStr) : JsStr :=
  match value with
  | none => nullSentinel
  | some .jnull => nullSentinel
  | some v => jsonEncode (.jarr ((shiftCodes (jsonEncode v) key 0).map shiftedToJson))

/-- Decimal value of a digit string. -/
def digitsVal (ds : JsStr) : Nat := ds.foldl (fun a c => a * 10 + (c - 48)) 0

/-- JavaScript `ToNumber` on a string, restricted to the integral grammar:
surrounding whitespace is trimmed, the empty (or all-whitespace) string is
0, an optional sign followed by digits is the obvious integer, and
everything else — including the fractional, exponent and hexadecimal
forms, which leave the integer model — is `NaN` (`none`). -/
def strToNumber (s : JsStr) : Option Int :=
  let t := (skipWs ((skipWs s).reverse)).reverse
  match t with
  | [] => some 0
  | c :: ds =>
    if c = 45 then
      if !ds.isEmpty && ds.all (fun d => isDigitCode d) then some (-(digitsVal ds : Int))
      else none
    else if c = 43 then
      if !ds.isEmpty && ds.all (fun d => isDigitCode d) then some ((digitsVal ds : Int))
      else none
    else if (c :: ds).all (fun d => isDigitCode d) then some ((digitsVal (c :: ds) : Int))
    else none

/-- JavaScript `ToNumber` on a parsed JSON value, with `NaN` as `none`:
null is 0, booleans are 0 and 1, numbers are themselves, strings parse via
`strToNumber`.  An array coerces through its joined string form, modelled
for the empty array (0), a singleton null (0) and a singleton number
(itself); the remaining array shapes and all objects are modelled as
`NaN` ([object Object] and comma-joined lists never parse as numbers in
the integral grammar). -/
def toNumberOpt : JsonValue → Option Int
  | .jnull => some 0
  | .jbool b => some (if b then 1 else 0)
  | .jnum n => some n
  | .jstr s => strToNumber s
  | .jarr [] => some 0
  | .jarr [.jnull] => some 0
  | .jarr [.jnum n] => some n
  | .jarr _ => none
  | .jobj _ => none

/-- The indexing `codesArr[i]` performed by the decryption loop: an array
element, a one-character string of a string, or the decimal-named own
property of an object; anything else (or an out-of-range index) is
`undefined` (`none`). -/
def elemAt (v : JsonValue) (i : Nat) : Option JsonValue :=
  match v with
  | .jarr es => es[i]?
  | .jstr s => (s[i]?).map (fun c => .jstr [c])
  | .jobj fs => (fs.find? (fun p => decide (p.1 = natToAscii i))).map (fun p => p.2)
  | _ => none

/-- The `length` read by the decryption loop's bound: array length, string
length, or an object's own `length` member coerced to a number.  Other
values have no `length`, so the loop body never runs (reading `length` on
parsed `null` throws instead, but the enclosing catch turns that into the
same null result the empty reconstruction produces). -/
def arrayLikeLen (v : JsonValue) : Option Int :=
  match v with
  | .jarr es => some (es.length : Int)
  | .jstr s => some (s.length : Int)
  | .jobj fs =>
    ((fs.find? (fun p => decide (p.1 = strToCodes "length"))).map (fun p => p.2)).bind
      toNumberOpt
  | _ => none

/-- One loop step `codesArr[i] - key.charCodeAt(i % key.length)`;
`NaN` propagates as `none` through coercion and subtraction. -/
def decryptCode (codesArr : JsonValue) (key : JsStr) (i : Nat) : Option Int :=
  match (elemAt codesArr i).bind toNumberOpt, keyCodeAt key i with
  | some a, some b => some (a - b)
  | _, _ => none

/-- `String.fromCharCode` of one loop result: `ToUint16` of the number,
with `NaN` mapping to code unit 0. -/
def fromCharCode (x : Option Int) : Nat :=
  match x with
  | none => 0
  | some n => (n % 65536).toNat

/-- The string rebuilt by the decryption loop. -/
def reconstruct (codesArr : JsonValue) (key : JsStr) : JsStr :=
  match arrayLikeLen codesArr with
  | none => []
  | some len => (List.range len.toNat).map (fun i => fromCharCode (decryptCode codesArr key i))

/-- `decrypt(encryptedStr, key)` from `crypto.js`.  The sentinel maps to
null before anything else; otherwise the payload is parsed (a `JSON.parse`
throw is caught and yields null), the loop rebuilds a string, and the
rebuilt string is parsed (failure caught the same way).  Every caught
exception path returns null, exactly as the source's catch block does. -/
def decrypt (encryptedStr : JsStr) (key : JsStr) : JsonValue :=
  if encryptedStr = nullSentinel then .jnull
  else
    match jsonDecode encryptedStr with
    | none => .jnull
    | some codesArr =>
      match jsonDecode (reconstruct codesArr key) with
      | none => .jnull
      | some v => v

example : decrypt (encrypt (some (.jnum 7)) (strToCodes "pw")) (strToCodes "pw")
    = .jnum 7 := by decide

example : decrypt (encrypt (some (.jstr (strToCodes "hi"))) (strToCodes "k"))
    (strToCodes "k") = .jstr (strToCodes "hi") := by decide

example : encrypt (some (.jnum 1)) [] = strToCodes "[null]" := by decide

example : decrypt (strToCodes "[null]") [] = .jnull := by decide

theorem shiftCodes_length (plain key : JsStr) (i : Nat) :
    (shiftCodes plain key i).length = plain.length := by
  induction plain generalizing i with
  | nil => rfl
  | cons c rest ih =>
    rw [shiftCodes.eq_def]
    simp [ih]

theorem shiftCodes_getElem? (plain key : JsStr) (i0 j : Nat) :
    (shiftCodes plain key i0)[j]?
      = (plain[j]?).map (fun c => (keyCodeAt key (i0 + j)).map (fun kc => c + kc)) := by
  induction plain generalizing i0 j with
  | nil => simp [shiftCodes.eq_def]
  | cons c rest ih =>
    rw [shiftCodes.eq_def]
    cases j with
    | zero => simp
    | succ j =>
      simp only [List.getElem?_cons_succ]
      rw [ih (i0 + 1) j]
      have h : i0 + 1 + j = i0 + (j + 1) := by omega
      rw [h]

theorem getD_lt (key : JsStr) (j : Nat) (h : ∀ c ∈ key, c < 65536) :
    key.getD j 0 < 65536 := by
  by_cases hj : j < key.length
  · rw [List.getD_eq_getElem key 0 hj]
    exact h _ (List.getElem_mem hj)
  · rw [List.getD_eq_default]
    · omega
    · omega

theorem escapeUnit_units (u : Nat) (hu : u < 65536) : ∀ c ∈ escapeUnit u, c < 65536 := by
  intro c hc
  have hhex : ∀ y : Nat, hexDigit (y % 16) < 65536 := by
    intro y
    have : y % 16 < 16 := Nat.mod_lt _ (by omega)
    simp only [hexDigit]
    split <;> omega
  rw [escapeUnit] at hc
  split_ifs at hc <;>
    simp only [hex4, List.mem_cons, List.mem_singleton, List.not_mem_nil, or_false] at hc <;>
    rcases hc with rfl | hc <;> first
      | omega
      | (rcases hc with rfl | rfl | rfl | rfl | rfl
         all_goals first | exact hhex _ | omega)

theorem quoteString_units (s : JsStr) (hs : ∀ c ∈ s, c < 65536) :
    ∀ c ∈ quoteString s, c < 65536 := by
  intro c hc
  simp only [quoteString, List.mem_cons, List.mem_append, List.mem_singleton,
    List.mem_flatMap, List.not_mem_nil, or_false] at hc
  rcases hc with rfl | ⟨u, hu, hcu⟩ | rfl
  · omega
  · exact escapeUnit_units u (hs u hu) c hcu
  · omega

theorem intToAscii_units (n : Int) : ∀ c ∈ intToAscii n, c < 65536 := by
  intro c hc
  have hdig : ∀ m : Nat, ∀ d ∈ natToAscii m, d < 65536 := by
    intro m d hd
    have := natToAscii_digits m d hd
    simp only [isDigitCode, Bool.and_eq_true, decide_eq_true_eq] at this
    omega
  rw [intToAscii] at hc
  split_ifs at hc
  · rcases List.mem_cons.mp hc with rfl | hc
    · omega
    · exact hdig _ c hc
  · exact hdig _ c hc

mutual

theorem jsonEncode_units : ∀ v : JsonValue, jvWF v = true → ∀ c ∈ jsonEncode v, c < 65536
  | .jnull, _ => by
    intro c hc
    rw [jsonEncode_jnull] at hc
    simp only [List.mem_cons, List.not_mem_nil, or_false] at hc
    rcases hc with rfl | rfl | rfl | rfl <;> omega
  | .jbool true, _ => by
    intro c hc
    rw [jsonEncode_jtrue] at hc
    simp only [List.mem_cons, List.not_mem_nil, or_false] at hc
    rcases hc with rfl | rfl | rfl | rfl <;> omega
  | .jbool false, _ => by
    intro c hc
    rw [jsonEncode_jfalse] at hc
    simp only [List.mem_cons, List.not_mem_nil, or_false] at hc
    rcases hc with rfl | rfl | rfl | rfl | rfl <;> omega
  | .jnum n, _ => by
    intro c hc
    rw [jsonEncode_jnum] at hc
    exact intToAscii_units n c hc
  | .jstr s, hwf => by
    intro c hc
    rw [jsonEncode_jstr] at hc
    refine quoteString_units s ?_ c hc
    rw [jvWF_jstr] at hwf
    intro u hu
    have := List.all_eq_true.mp hwf u hu
    simpa using this
  | .jarr es, hwf => by
    intro c hc
    rw [jvWF_jarr] at hwf
    rw [jsonEncode_jarr] at hc
    simp only [List.mem_cons, List.mem_append, List.mem_singleton, List.not_mem_nil,
      or_false] at hc
    rcases hc with rfl | hc | rfl
    · omega
    · exact jsonEncodeElems_units es hwf c hc
    · omega
  | .jobj fs, hwf => by
    intro c hc
    rw [jvWF_jobj] at hwf
    rw [jsonEncode_jobj] at hc
    simp only [List.mem_cons, List.mem_append, List.mem_singleton, List.not_mem_nil,
      or_false] at hc
    rcases hc with rfl | hc | rfl
    · omega
    · exact jsonEncodeFields_units fs hwf c hc
    · omega

theorem jsonEncodeElems_units :
    ∀ es : List JsonValue, jvWFElems es = true → ∀ c ∈ jsonEncodeElems es, c < 65536
  | [], _ => by
    intro c hc
    rw [jsonEncodeElems_nil] at hc
    simp at hc
  | [v], hwf => by
    intro c hc
    rw [jsonEncodeElems_single] at hc
    rw [jvWFElems_cons, jvWFElems_nil] at hwf
    simp only [Bool.and_eq_true, and_true] at hwf
    exact jsonEncode_units v hwf c hc
  | v :: v' :: vs, hwf => by
    intro c hc
    rw [jvWFElems_cons] at hwf
    simp only [Bool.and_eq_true] at hwf
    rw [jsonEncodeElems_cons2] at hc
    simp only [List.mem_append, List.mem_cons] at hc
    rcases hc with hc | rfl | hc
    · exact jsonEncode_units v hwf.1 c hc
    · omega
    · exact jsonEncodeElems_units (v' :: vs) hwf.2 c hc

theorem jsonEncodeFields_units :
    ∀ fs : List (JsStr × JsonValue), jvWFFields fs = true →
      ∀ c ∈ jsonEncodeFields fs, c < 65536
  | [], _ => by
    intro c hc
    rw [jsonEncodeFields_nil] at hc
    simp at hc
  | [(k, v)], hwf => by
    intro c hc
    rw [jvWFFields_cons, jvWFFields_nil] at hwf
    simp only [Bool.and_eq_true, and_true] at hwf
    rw [jsonEncodeFields_single] at hc
    simp only [List.mem_append, List.mem_cons] at hc
    have hk : ∀ u ∈ k, u < 65536 := by
      intro u hu
      have := List.all_eq_true.mp hwf.1.1 u hu
      simpa using this
    rcases hc with hc | rfl | hc
    · exact quoteString_units k hk c hc
    · omega
    · exact jsonEncode_units v hwf.2 c hc
  | (k, v) :: f2 :: fs2, hwf => by
    intro c hc
    rw [jvWFFields_cons] at hwf
    simp only [Bool.and_eq_true] at hwf
    rw [jsonEncodeFields_cons2] at hc
    simp only [List.mem_append, List.mem_cons] at hc
    have hk : ∀ u ∈ k, u < 65536 := by
      intro u hu
      have := List.all_eq_true.mp hwf.1.1.1 u hu
      simpa using this
    rcases hc with (hc | rfl | hc) | rfl | hc
    · exact quoteString_units k hk c hc
    · omega
    · exact jsonEncode_units v hwf.1.2 c hc
    · omega
    · exact jsonEncodeFields_units (f2 :: fs2) hwf.2 c hc

end

/-- The shifted number array is a well-formed JSON value whenever the
plaintext and key code units fit in UTF-16 (their sums are far below
`2 ^ 53`). -/
theorem jvWF_shifted (P key : JsStr) (i0 : Nat) (hP : ∀ c ∈ P, c < 65536)
    (hk : ∀ c ∈ key, c < 65536) :
    jvWF (.jarr ((shiftCodes P key i0).map shiftedToJson)) = true := by
  rw [jvWF_jarr]
  induction P generalizing i0 with
  | nil => rw [shiftCodes.eq_def]; simp
  | cons c rest ih =>
    rw [shiftCodes.eq_def]
    simp only [List.map_cons, jvWFElems_cons, Bool.and_eq_true]
    constructor
    · rw [keyCodeAt]
      split_ifs with h0
      · simp [shiftedToJson]
      · have hc : c < 65536 := hP c (List.mem_cons_self c rest)
        have hkc : key.getD (i0 % key.length) 0 < 65536 := getD_lt key _ hk
        simp only [Option.map_some', shiftedToJson, jvWF_jnum, decide_eq_true_eq,
          Int.natAbs_ofNat]
        omega
    · exact ih (i0 + 1) (fun d hd => hP d (List.mem_cons_of_mem c hd))

/-- The decryption loop exactly inverts the shift: subtracting the same
key unit and truncating to UTF-16 recovers every plaintext unit. -/
theorem reconstruct_shift (P key : JsStr) (hkey : key ≠ [])
    (hP : ∀ c ∈ P, c < 65536) :
    reconstruct (.jarr ((shiftCodes P key 0).map shiftedToJson)) key = P := by
  have hlen : ((shiftCodes P key 0).map shiftedToJson).length = P.length := by
    rw [List.length_map, shiftCodes_length]
  rw [reconstruct, arrayLikeLen, hlen]
  simp only [Int.toNat_ofNat]
  apply List.ext_getElem
  · simp
  · intro i h1 h2
    have hi : i < P.length := by simpa using h1
    have hkl : key.length ≠ 0 := fun h => hkey (List.eq_nil_of_length_eq_zero h)
    have hkey_i : keyCodeAt key i = some (key.getD (i % key.length) 0) := by
      rw [keyCodeAt, if_neg hkl]
    have helem : ((shiftCodes P key 0).map shiftedToJson)[i]?
        = some (.jnum ((P[i] + key.getD (i % key.length) 0 : Nat) : Int)) := by
      rw [List.getElem?_map, shiftCodes_getElem?, List.getElem?_eq_getElem hi,
        show 0 + i = i from by omega, hkey_i]
      simp [shiftedToJson]
    have hdec : decryptCode (.jarr ((shiftCodes P key 0).map shiftedToJson)) key i
        = some ((P[i] : Int)) := by
      rw [decryptCode, elemAt, helem, hkey_i]
      simp only [Option.some_bind, toNumberOpt]
      congr 1
      push_cast
      ring
    simp only [List.getElem_map, List.getElem_range, hdec, fromCharCode]
    have hPi : P[i] < 65536 := hP _ (List.getElem_mem hi)
    have : ((P[i] : Int)) % 65536 = ((P[i] : Int)) := by omega
    rw [this]
    exact Int.toNat_ofNat _

/-- `encrypt` on a non-null value unfolds to the serialized shifted
array. -/
theorem encrypt_some (v : JsonValue) (hv : v ≠ .jnull) (key : JsStr) :
    encrypt (some v) key
      = jsonEncode (.jarr ((shiftCodes (jsonEncode v) key 0).map shiftedToJson)) := by
  cases v with
  | jnull => exact absurd rfl hv
  | jbool b => rfl
  | jnum n => rfl
  | jstr s => rfl
  | jobj fs => rfl
  | jarr es => rfl

/-- The serialization of an array is never the sentinel (it starts with a
bracket, the sentinel with an underscore). -/
theorem jsonEncode_jarr_ne_sentinel (es : List JsonValue) :
    jsonEncode (.jarr es) ≠ nullSentinel := by
  intro h
  rw [jsonEncode_jarr, show nullSentinel = [95, 95, 78, 85, 76, 76, 95, 95] from rfl] at h
  simp at h

/-- Round-trip of the obfuscation transform for a non-empty key made of
UTF-16 code units: decrypting an encrypted well-formed value returns the
value. -/
theorem decrypt_encrypt (v : JsonValue) (key : JsStr) (hkey : key ≠ [])
    (hkwf : ∀ c ∈ key, c < 65536) (hwf : jvWF v = true) :
    decrypt (encrypt (some v) key) key = v := by
  by_cases hv : v = .jnull
  · subst hv
    rfl
  · have h2 : reconstruct (.jarr ((shiftCodes (jsonEncode v) key 0).map shiftedToJson)) key
        = jsonEncode v := reconstruct_shift (jsonEncode v) key hkey (jsonEncode_units v hwf)
    rw [encrypt_some v hv key, decrypt, if_neg (jsonEncode_jarr_ne_sentinel _),
      jsonDecode_jsonEncode _ (jvWF_shifted (jsonEncode v) key 0 (jsonEncode_units v hwf) hkwf)]
    simp only [h2, jsonDecode_jsonEncode v hwf]

/-! ### The substrate (`localStorage`) and the value store (`storage.js`) -/

/-- The substrate: an association list of (key, value) string pairs kept
in insertion order, mirroring the `localStorage` collaborator contract
(`getItem` / `setItem` / `removeItem` / key enumeration). -/
abbrev Store := List (JsStr × JsStr)

/-- `localStorage.getItem`: the stored string, or null (`none`). -/
def getItem (s : Store) (k : JsStr) : Option JsStr :=
  (s.find? (fun p => decide (p.1 = k))).map (fun p => p.2)

/-- `localStorage.setItem`: overwrite the existing entry in place, or
append a new one. -/
def setItem : Store → JsStr → JsStr → Store
  | [], k, v => [(k, v)]
  | (k2, v2) :: rest, k, v =>
    if k2 = k then (k, v) :: rest else (k2, v2) :: setItem rest k v

/-- `localStorage.removeItem`: delete the entry under the key (a no-op
when absent). -/
def removeItem (s : Store) (k : JsStr) : Store :=
  s.filter (fun p => decide (p.1 ≠ k))

/-- `parseInt(str, 10)`: skip leading whitespace, accept an optional sign
followed by a run of digits, and ignore everything after the run; no
leading digit at all yields `NaN` (`none`). -/
def parseIntJs (s : JsStr) : Option Int :=
  match skipWs s with
  | [] => none
  | c :: rest =>
    if c = 45 then
      match rest with
      | [] => none
      | d :: _ =>
        if isDigitCode d then some (-((readDigits rest 0).1 : Int)) else none
    else if c = 43 then
      match rest with
      | [] => none
      | d :: _ =>
        if isDigitCode d then some (((readDigits rest 0).1 : Int)) else none
    else if isDigitCode c then some (((readDigits (c :: rest) 0).1 : Int))
    else none

/-- The base64 alphabet character at an index below 64. -/
def b64Char (n : Nat) : Nat :=
  if n < 26 then 65 + n
  else if n < 52 then 97 + (n - 26)
  else if n < 62 then 48 + (n - 52)
  else if n = 62 then 43
  else 47

/-- `base64encode` from `utils.js` (`btoa`): standard base64 with `=`
padding over a byte string.  `btoa` throws `InvalidCharacterError` on code
units above 255; the model is applied only to byte strings (every label in
the claims is ASCII). -/
def base64encode : JsStr → JsStr
  | [] => []
  | [a] => [b64Char (a / 4), b64Char (a % 4 * 16), 61, 61]
  | [a, b] => [b64Char (a / 4), b64Char (a % 4 * 16 + b / 16), b64Char (b % 16 * 4), 61]
  | a :: b :: c :: rest =>
    b64Char (a / 4) :: b64Char (a % 4 * 16 + b / 16) :: b64Char (b % 16 * 4 + c / 64) ::
      b64Char (c % 64) :: base64encode rest

example : base64encode (strToCodes "@a") = strToCodes "QGE=" := by decide

example : base64encode (strToCodes "@app1") = strToCodes "QGFwcDE=" := by decide

/-- `getNamespace` from `namespace.js`: an explicit non-empty label is
prefixed with `@` and base64-encoded; an undefined, null or empty label
falls back to the origin token computed by `getRootUrl`, which reads the
host environment (`window.location`) and is therefore a parameter here. -/
def getNamespace (rootUrl : JsStr) (label : Option JsStr) : JsStr :=
  match label with
  | none => base64encode rootUrl
  | some l => if l = [] then base64encode rootUrl else base64encode (strToCodes "@" ++ l)

/-- `createNamespacedKey` from `namespace.js`: plain concatenation with no
separator. -/
def createNamespacedKey (key namespaceStr : JsStr) : JsStr := key ++ namespaceStr

/-- `createExpirationKey` from `namespace.js`: append the `&&expires`
suffix. -/
def createExpirationKey (namespacedKey : JsStr) : JsStr :=
  namespacedKey ++ strToCodes "&&expires"

/-- `isExpired` from `storage.js`: an absent expiration entry means not
expired; a present entry is `parseInt`ed and compared with the current
time in seconds (`now >= expires`; when `parseInt` yields `NaN` the
comparison is false, as every comparison with NaN is). -/
def isExpired (s : Store) (namespacedKey : JsStr) (now : Int) : Bool :=
  match getItem s (createExpirationKey namespacedKey) with
  | none => false
  | some expiresValue =>
    match parseIntJs expiresValue with
    | none => false
    | some expires => decide (now ≥ expires)

/-- `setValue` from `storage.js`: write the JSON-serialized value
unconditionally; when the expiration delay is a number (`some`), also
write `now + expires` (as a decimal string) under the expiration key. -/
def setValue (s : Store) (namespacedKey : JsStr) (value : JsonValue) (expires : Option Int)
    (now : Int) : Store :=
  let s1 := setItem s namespacedKey (jsonEncode value)
  match expires with
  | none => s1
  | some e => setItem s1 (createExpirationKey namespacedKey) (intToAscii (now + e))

/-- `removeValue` from `storage.js`: delete the value entry and the
expiration entry. -/
def removeValue (s : Store) (namespacedKey : JsStr) : Store :=
  removeItem (removeItem s namespacedKey) (createExpirationKey namespacedKey)

/-- `getValue` from `storage.js`: an expired entry is removed (lazy
eviction on read) and reported as null; otherwise the raw string is
parsed, a parse failure being logged and returned as null rather than
thrown.  The first component is the returned value (`none` is JavaScript
null), the second the possibly mutated substrate. -/
def getValue (s : Store) (namespacedKey : JsStr) (now : Int) :
    Option JsonValue × Store :=
  if isExpired s namespacedKey now then (none, removeValue s namespacedKey)
  else
    match getItem s namespacedKey with
    | none => (none, s)
    | some value =>
      match jsonDecode value with
      | none => (none, s)
      | some v => (some v, s)

/-- Does the second string start with the first? -/
def startsWith : JsStr → JsStr → Bool
  | [], _ => true
  | _ :: _, [] => false
  | p :: ps, c :: cs => decide (p = c) && startsWith ps cs

/-- `String.prototype.indexOf(pat) > -1`: does `pat` occur as a contiguous
substring? -/
def isSubstringOf (pat : JsStr) : JsStr → Bool
  | [] => pat.isEmpty
  | c :: rest => startsWith pat (c :: rest) || isSubstringOf pat rest

/-- `emptyNamespace` from `storage.js`: delete every substrate key that
contains the namespace token as a substring
(`key.indexOf(namespacePrefix) > -1`). -/
def emptyNamespace (s : Store) (namespacePrefix : JsStr) : Store :=
  s.filter (fun p => !(isSubstringOf namespacePrefix p.1))

/-! ### The Registry facade (`registry.js`) -/

mutual

/-- JavaScript `ToString` on a parsed JSON value (reached when a
non-string is handed to `JSON.parse` inside `decrypt`): null and booleans
print their keyword, numbers print in decimal, strings are themselves,
arrays join their elements with commas, objects print
`[object Object]`. -/
def jsToString : JsonValue → JsStr
  | .jnull => strToCodes "null"
  | .jbool true => strToCodes "true"
  | .jbool false => strToCodes "false"
  | .jnum n => intToAscii n
  | .jstr s => s
  | .jobj _ => strToCodes "[object Object]"
  | .jarr es => joinElems es

/-- `Array.prototype.join` with the default comma separator. -/
def joinElems : List JsonValue → JsStr
  | [] => []
  | [v] => jsToStringElem v
  | v :: v' :: vs => jsToStringElem v ++ 44 :: joinElems (v' :: vs)

/-- One joined element: null (and undefined) print as the empty string
inside a join. -/
def jsToStringElem : JsonValue → JsStr
  | .jnull => []
  | v => jsToString v

end

/-- `decrypt` as invoked from `Registry.get`, where the argument is
whatever value the substrate string parsed to and may not be a string: a
string payload decrypts directly; any other value reaches the
`JSON.parse` inside `decrypt`, which coerces its argument through
`ToString` first (the `=== "__NULL__"` guard inside `decrypt` is false
for every non-string). -/
def decryptVal (ev : JsonValue) (key : JsStr) : JsonValue :=
  match ev with
  | .jstr p => decrypt p key
  | v => decrypt (jsToString v) key

/-- `Registry.set`: compose the namespaced key, encrypt the value taking
the logical key itself as the obfuscation key, and delegate to the value
store. -/
def regSet (namespaceFinal key : JsStr) (value : Option JsonValue) (expires : Option Int)
    (now : Int) (s : Store) : Store :=
  setValue s (createNamespacedKey key namespaceFinal) (.jstr (encrypt value key)) expires now

/-- `Registry.get`: read through the value store (possibly evicting an
expired entry), return null for a missing value, a parsed null, or the
sentinel, and decrypt anything else; a decrypt failure surfaces as null,
never as an exception. -/
def regGet (namespaceFinal key : JsStr) (now : Int) (s : Store) : JsonValue × Store :=
  match getValue s (createNamespacedKey key namespaceFinal) now with
  | (none, s2) => (.jnull, s2)
  | (some ev, s2) =>
    if ev = .jnull then (.jnull, s2)
    else if ev = .jstr nullSentinel then (.jnull, s2)
    else (decryptVal ev key, s2)

/-- `Registry.remove`: delete the value and expiration entries of the
namespaced key. -/
def regRemove (namespaceFinal key : JsStr) (s : Store) : Store :=
  removeValue s (createNamespacedKey key namespaceFinal)

/-- `Registry.empty`: clear every substrate key containing this
instance's namespace token. -/
def regEmpty (namespaceFinal : JsStr) (s : Store) : Store :=
  emptyNamespace s namespaceFinal

section ConcreteChecks

example :
    (regGet (getNamespace [] (some (strToCodes "app1"))) (strToCodes "user") 0
      (regSet (getNamespace [] (some (strToCodes "app1"))) (strToCodes "user")
        (some (.jstr (strToCodes "Ann"))) none 0 [])).1
      = .jstr (strToCodes "Ann") := by decide

example :
    (regGet (getNamespace [] (some (strToCodes "app1"))) (strToCodes "user") 0
      (regRemove (getNamespace [] (some (strToCodes "app1"))) (strToCodes "user")
        (regSet (getNamespace [] (some (strToCodes "app1"))) (strToCodes "user")
          (some (.jnum 1)) none 0 []))).1
      = .jnull := by decide

end ConcreteChecks

/-! ### Substrate and storage lemmas -/

theorem getItem_cons_self (k v : JsStr) (rest : Store) :
    getItem ((k, v) :: rest) k = some v := by
  rw [getItem, List.find?_cons_of_pos _ (by simp)]
  rfl

theorem getItem_cons_other (k2 v2 x : JsStr) (rest : Store) (h : k2 ≠ x) :
    getItem ((k2, v2) :: rest) x = getItem rest x := by
  rw [getItem, List.find?_cons_of_neg _ (by simpa using h)]
  rfl

theorem getItem_setItem_self (s : Store) (k v : JsStr) :
    getItem (setItem s k v) k = some v := by
  induction s with
  | nil =>
    rw [setItem]
    exact getItem_cons_self k v []
  | cons p rest ih =>
    obtain ⟨k2, v2⟩ := p
    rw [setItem]
    by_cases h : k2 = k
    · rw [if_pos h]
      exact getItem_cons_self k v rest
    · rw [if_neg h, getItem_cons_other k2 v2 k _ h]
      exact ih

theorem getItem_setItem_other (s : Store) (k v x : JsStr) (h : x ≠ k) :
    getItem (setItem s k v) x = getItem s x := by
  induction s with
  | nil =>
    rw [setItem, getItem_cons_other k v x [] (Ne.symm h)]
  | cons p rest ih =>
    obtain ⟨k2, v2⟩ := p
    rw [setItem]
    by_cases h2 : k2 = k
    · subst h2
      rw [if_pos rfl, getItem_cons_other k2 v x rest (Ne.symm h),
        getItem_cons_other k2 v2 x rest (Ne.symm h)]
    · rw [if_neg h2]
      by_cases h3 : k2 = x
      · subst h3
        rw [getItem_cons_self, getItem_cons_self]
      · rw [getItem_cons_other k2 v2 x _ h3, getItem_cons_other k2 v2 x rest h3]
        exact ih

theorem getItem_removeItem_self (s : Store) (k : JsStr) :
    getItem (removeItem s k) k = none := by
  rw [getItem]
  have hfind : List.find? (fun p => decide (p.1 = k)) (removeItem s k) = none := by
    rw [List.find?_eq_none]
    intro p hp
    rw [removeItem, List.mem_filter] at hp
    simp only [decide_eq_true_eq] at hp
    simpa using hp.2
  rw [hfind]
  rfl

theorem getItem_removeItem_other (s : Store) (k x : JsStr) (h : x ≠ k) :
    getItem (removeItem s k) x = getItem s x := by
  induction s with
  | nil => rfl
  | cons p rest ih =>
    obtain ⟨k2, v2⟩ := p
    rw [removeItem, List.filter_cons]
    by_cases h2 : k2 = k
    · rw [if_neg (by simpa using h2), getItem_cons_other k2 v2 x rest
        (fun he => h (he.symm.trans h2))]
      exact ih
    · rw [if_pos (by simpa using h2)]
      by_cases h3 : k2 = x
      · subst h3
        rw [getItem_cons_self]
        exact (getItem_cons_self k2 v2 rest).symm
      · rw [getItem_cons_other k2 v2 x _ h3, getItem_cons_other k2 v2 x rest h3]
        exact ih

theorem createExpirationKey_ne (nk : JsStr) : createExpirationKey nk ≠ nk := by
  intro h
  have := congrArg List.length h
  rw [createExpirationKey, List.length_append] at this
  simp [strToCodes] at this

/-- `parseInt` inverts the decimal printing used for expiration
timestamps. -/
theorem parseIntJs_intToAscii (n : Int) : parseIntJs (intToAscii n) = some n := by
  have key : ∀ m : Nat, readDigits (natToAscii m) 0 = (m, []) := fun m => by
    have := readDigits_append (natToAscii m) [] 0 (natToAscii_digits m) (by simp)
    rw [List.append_nil] at this
    rw [this, natToAscii_foldl]
  by_cases hneg : n < 0
  · obtain ⟨c, t, ht⟩ : ∃ c t, natToAscii n.natAbs = c :: t := by
      cases h : natToAscii n.natAbs with
      | nil => exact absurd h (natToAscii_ne_nil _)
      | cons c t => exact ⟨c, t, rfl⟩
    have hc : isDigitCode c = true :=
      natToAscii_digits _ c (by rw [ht]; exact List.mem_cons_self c t)
    have hcws : isWsCode c = false := by
      simp only [isDigitCode, Bool.and_eq_true, decide_eq_true_eq] at hc
      simp only [isWsCode, Bool.or_eq_false_iff, decide_eq_false_iff_not]
      omega
    rw [intToAscii, if_pos hneg, parseIntJs, ht, skipWs_cons, show isWsCode 45 = false from rfl]
    simp only [Bool.false_eq_true, if_false, if_pos rfl]
    rw [← ht, key n.natAbs, ht]
    simp only [hc, if_true]
    have : -((n.natAbs : Nat) : Int) = n := by omega
    rw [this]
  · obtain ⟨c, t, ht⟩ : ∃ c t, natToAscii n.toNat = c :: t := by
      cases h : natToAscii n.toNat with
      | nil => exact absurd h (natToAscii_ne_nil _)
      | cons c t => exact ⟨c, t, rfl⟩
    have hc : isDigitCode c = true :=
      natToAscii_digits _ c (by rw [ht]; exact List.mem_cons_self c t)
    have hrange : 48 ≤ c ∧ c ≤ 57 := by simpa [isDigitCode] using hc
    have hcws : isWsCode c = false := by
      simp only [isWsCode, Bool.or_eq_false_iff, decide_eq_false_iff_not]
      omega
    rw [intToAscii, if_neg hneg, parseIntJs, ht, skipWs_cons, hcws]
    simp only [Bool.false_eq_true, if_false]
    rw [if_neg (by omega), if_neg (by omega), if_pos hc, ← ht, key n.toNat]
    simp only [Option.some.injEq]
    omega

/-- Every code unit of an encrypted payload fits in UTF-16. -/
theorem encrypt_units (v : JsonValue) (k : JsStr) (hkwf : ∀ c ∈ k, c < 65536)
    (hwf : jvWF v = true) : ∀ c ∈ encrypt (some v) k, c < 65536 := by
  by_cases hv : v = .jnull
  · subst hv
    intro c hc
    rw [show encrypt (some .jnull) k = nullSentinel from rfl] at hc
    revert c
    decide
  · rw [encrypt_some v hv k]
    exact jsonEncode_units _ (jvWF_shifted (jsonEncode v) k 0 (jsonEncode_units v hwf) hkwf)

/-- Reading back a freshly stored encrypted payload while it is not
expired returns the original value. -/
theorem regGet_payload (ns k : JsStr) (v : JsonValue) (now2 : Int) (s' : Store)
    (hk : k ≠ []) (hkwf : ∀ c ∈ k, c < 65536) (hwf : jvWF v = true)
    (hexp : isExpired s' (createNamespacedKey k ns) now2 = false)
    (hval : getItem s' (createNamespacedKey k ns)
      = some (jsonEncode (.jstr (encrypt (some v) k)))) :
    (regGet ns k now2 s').1 = v := by
  have hparse : jsonDecode (jsonEncode (.jstr (encrypt (some v) k)))
      = some (.jstr (encrypt (some v) k)) := by
    refine jsonDecode_jsonEncode _ ?_
    rw [jvWF_jstr, List.all_eq_true]
    intro c hc
    simpa using encrypt_units v k hkwf hwf c hc
  rw [regGet, getValue, hexp]
  simp only [Bool.false_eq_true, if_false, hval, hparse]
  by_cases hv : v = .jnull
  · subst hv
    rw [show encrypt (some .jnull) k = nullSentinel from rfl]
    simp
  · have hns : encrypt (some v) k ≠ nullSentinel := by
      rw [encrypt_some v hv k]
      exact jsonEncode_jarr_ne_sentinel _
    have h1 : (JsonValue.jstr (encrypt (some v) k)) ≠ .jnull := fun h =>
      JsonValue.noConfusion h
    have h2 : (JsonValue.jstr (encrypt (some v) k)) ≠ .jstr nullSentinel := by
      intro h
      injection h with h
      exact hns h
    simp only [h1, h2, if_false]
    rw [show decryptVal (.jstr (encrypt (some v) k)) k = decrypt (encrypt (some v) k) k
      from rfl]
    exact decrypt_encrypt v k hk hkwf hwf

/-- Writing without an expiry is a single substrate write. -/
theorem regSet_none_unfold (ns k : JsStr) (val : Option JsonValue) (now : Int) (s : Store) :
    regSet ns k val none now s
      = setItem s (createNamespacedKey k ns) (jsonEncode (.jstr (encrypt val k))) := rfl

/-- Writing with an expiry also writes the timestamp entry. -/
theorem regSet_some_unfold (ns k : JsStr) (val : Option JsonValue) (e now : Int) (s : Store) :
    regSet ns k val (some e) now s
      = setItem (setItem s (createNamespacedKey k ns) (jsonEncode (.jstr (encrypt val k))))
          (createExpirationKey (createNamespacedKey k ns)) (intToAscii (now + e)) := rfl

/-- After a write with expiry `e` at time `now`, the expiry check compares
the clock with `now + e`. -/
theorem isExpired_after_set (ns k : JsStr) (val : Option JsonValue) (e now t : Int)
    (s : Store) :
    isExpired (regSet ns k val (some e) now s) (createNamespacedKey k ns) t
      = decide (t ≥ now + e) := by
  rw [regSet_some_unfold, isExpired, getItem_setItem_self]
  simp only [parseIntJs_intToAscii]

/-- After a write without expiry, the expiry check sees whatever
expiration entry the substrate already held. -/
theorem isExpired_after_set_none (ns k : JsStr) (val : Option JsonValue) (now t : Int)
    (s : Store)
    (hstale : getItem s (createExpirationKey (createNamespacedKey k ns)) = none) :
    isExpired (regSet ns k val none now s) (createNamespacedKey k ns) t = false := by
  rw [regSet_none_unfold, isExpired,
    getItem_setItem_other _ _ _ _ (createExpirationKey_ne _), hstale]

/-- The value entry a `set` writes, as `get` reads it back. -/
theorem getItem_regSet_value (ns k : JsStr) (val : Option JsonValue) (exp : Option Int)
    (now : Int) (s : Store) :
    getItem (regSet ns k val exp now s) (createNamespacedKey k ns)
      = some (jsonEncode (.jstr (encrypt val k))) := by
  cases exp with
  | none => rw [regSet_none_unfold, getItem_setItem_self]
  | some e =>
    rw [regSet_some_unfold,
      getItem_setItem_other _ _ _ _ (Ne.symm (createExpirationKey_ne _)),
      getItem_setItem_self]

/-! ### Claim theorems -/

/-- C3 (amended): after `set(k, v, 1)` at time `now`, an immediate `get(k)`
returns `v`, and a `get(k)` two or more simulated seconds later returns
null with both the value entry and the expiration entry deleted from the
substrate — for every non-empty key `k` (a JavaScript string) and every
JSON-representable value `v` (the empty logical key, which the claim's
blanket quantification would include, makes the obfuscation key empty and
is excluded; see the counterexample). -/
theorem C3_expiration_amended (ns k : JsStr) (v : JsonValue) (now : Int) (s : Store)
    (hk : k ≠ []) (hkwf : ∀ c ∈ k, c < 65536) (hwf : jvWF v = true) :
    (regGet ns k now (regSet ns k (some v) (some 1) now s)).1 = v ∧
    (∀ d : Int, 2 ≤ d →
      (regGet ns k (now + d) (regSet ns k (some v) (some 1) now s)).1 = .jnull ∧
      getItem (regGet ns k (now + d) (regSet ns k (some v) (some 1) now s)).2
        (createNamespacedKey k ns) = none ∧
      getItem (regGet ns k (now + d) (regSet ns k (some v) (some 1) now s)).2
        (createExpirationKey (createNamespacedKey k ns)) = none) := by
  constructor
  · refine regGet_payload ns k v now _ hk hkwf hwf ?_ (getItem_regSet_value ns k (some v)
      (some 1) now s)
    rw [isExpired_after_set]
    simp only [decide_eq_false_iff_not]
    omega
  · intro d hd
    have hexp : isExpired (regSet ns k (some v) (some 1) now s)
        (createNamespacedKey k ns) (now + d) = true := by
      rw [isExpired_after_set]
      simp only [decide_eq_true_eq]
      omega
    rw [regGet, getValue, hexp]
    simp only [if_true]
    refine ⟨trivial, ?_, ?_⟩
    · rw [removeValue,
        getItem_removeItem_other _ _ _ (Ne.symm (createExpirationKey_ne _)),
        getItem_removeItem_self]
    · rw [removeValue, getItem_removeItem_self]

/-- C3 counterexample: the claim quantifies over every key, but with the
empty logical key — hence an empty obfuscation key — `set(k, v, 1)`
followed by an immediate `get(k)` returns null, not `v = 42`: the stored
payload `"[null]"` cannot be decrypted. -/
theorem C3_counterexample :
    (regGet (getNamespace [] (some (strToCodes "a"))) [] 0
      (regSet (getNamespace [] (some (strToCodes "a"))) [] (some (.jnum 42)) (some 1) 0
        [])).1 = .jnull ∧
    JsonValue.jnull ≠ .jnum 42 := by decide

/-- C3 witness. -/
theorem C3_witness :
    (regGet (strToCodes "NS") (strToCodes "k") 100
      (regSet (strToCodes "NS") (strToCodes "k") (some (.jnum 5)) (some 1) 100 [])).1
      = .jnum 5 ∧
    (regGet (strToCodes "NS") (strToCodes "k") (100 + 2)
      (regSet (strToCodes "NS") (strToCodes "k") (some (.jnum 5)) (some 1) 100 [])).1
      = .jnull := by
  have h := C3_expiration_amended (strToCodes "NS") (strToCodes "k") (.jnum 5) 100 []
    (by decide) (by decide) (by decide)
  exact ⟨h.1, (h.2 2 (by omega)).1⟩

/-- A `set` without expiry on a substrate holding no stale expiration
entry for the key reads back as the stored value at every later time. -/
theorem regGet_regSet_none_core (ns k : JsStr) (v : JsonValue) (now now2 : Int)
    (s : Store) (hk : k ≠ []) (hkwf : ∀ c ∈ k, c < 65536) (hwf : jvWF v = true)
    (hstale : getItem s (createExpirationKey (createNamespacedKey k ns)) = none) :
    (regGet ns k now2 (regSet ns k (some v) none now s)).1 = v :=
  regGet_payload ns k v now2 _ hk hkwf hwf
    (isExpired_after_set_none ns k (some v) now now2 s hstale)
    (getItem_regSet_value ns k (some v) none now s)

/-- C4 (amended): `set(k, v)` with no expiry argument writes no expiration
entry, and — provided the substrate holds no stale expiration entry for
that namespaced key — a later `get(k)` returns `v` after an arbitrarily
long simulated delay.  The stale-entry proviso is forced by the
counterexample: `setValue` never clears an expiration entry left by an
earlier `set` with expiry, so on such substrate states the value does not
persist. -/
theorem C4_no_expiry_amended (ns k : JsStr) (v : JsonValue) (now : Int) (s : Store)
    (hk : k ≠ []) (hkwf : ∀ c ∈ k, c < 65536) (hwf : jvWF v = true)
    (hstale : getItem s (createExpirationKey (createNamespacedKey k ns)) = none) :
    getItem (regSet ns k (some v) none now s)
      (createExpirationKey (createNamespacedKey k ns)) = none ∧
    ∀ now2 : Int, (regGet ns k now2 (regSet ns k (some v) none now s)).1 = v := by
  constructor
  · rw [regSet_none_unfold,
      getItem_setItem_other _ _ _ _ (createExpirationKey_ne _)]
    exact hstale
  · intro now2
    exact regGet_regSet_none_core ns k v now now2 s hk hkwf hwf hstale

/-- C4 counterexample: on the reachable substrate state left by
`set(k, 1, 1)` at time 0, a plain `set(k, 2)` writes no expiration entry —
but the stale entry from the first write remains, so `get(k)` at time 5
returns null instead of the claimed 2: the value does not persist
indefinitely. -/
theorem C4_counterexample :
    (regGet (getNamespace [] (some (strToCodes "a"))) (strToCodes "k") 5
      (regSet (getNamespace [] (some (strToCodes "a"))) (strToCodes "k") (some (.jnum 2))
        none 0
        (regSet (getNamespace [] (some (strToCodes "a"))) (strToCodes "k") (some (.jnum 1))
          (some 1) 0 []))).1 = .jnull ∧
    JsonValue.jnull ≠ .jnum 2 := by decide

/-- C4 witness. -/
theorem C4_witness :
    getItem (regSet (strToCodes "NS") (strToCodes "k") (some (.jnum 7)) none 0 [])
      (createExpirationKey (createNamespacedKey (strToCodes "k") (strToCodes "NS")))
      = none ∧
    (regGet (strToCodes "NS") (strToCodes "k") 1000000
      (regSet (strToCodes "NS") (strToCodes "k") (some (.jnum 7)) none 0 [])).1
      = .jnum 7 := by
  have h := C4_no_expiry_amended (strToCodes "NS") (strToCodes "k") (.jnum 7) 0 []
    (by decide) (by decide) (by decide) (by decide)
  exact ⟨h.1, h.2 1000000⟩

/-- C10: for every non-empty key, the encrypted form of a non-null value
is a JSON array string — its first code unit is `[` — and is therefore
never the sentinel `"__NULL__"`; consequently storing the literal string
`"__NULL__"` as a value round-trips: `set(k, "__NULL__")` then `get(k)`
returns the string `"__NULL__"`, not null (stated on a substrate holding
no stale expiration entry for that key, as in the claim's fresh
set-then-get scenario). -/
theorem C10_sentinel_no_collision (k : JsStr) (hk : k ≠ [])
    (hkwf : ∀ c ∈ k, c < 65536) :
    (∀ v : JsonValue, v ≠ .jnull →
      (encrypt (some v) k).head? = some 91 ∧ encrypt (some v) k ≠ nullSentinel) ∧
    ∀ (ns : JsStr) (now : Int) (s : Store),
      getItem s (createExpirationKey (createNamespacedKey k ns)) = none →
      (regGet ns k now (regSet ns k (some (.jstr nullSentinel)) none now s)).1
        = .jstr nullSentinel := by
  constructor
  · intro v hv
    constructor
    · rw [encrypt_some v hv k, jsonEncode_jarr]
      rfl
    · rw [encrypt_some v hv k]
      exact jsonEncode_jarr_ne_sentinel _
  · intro ns now s hstale
    exact regGet_regSet_none_core ns k (.jstr nullSentinel) now now s hk hkwf (by decide)
      hstale

/-- C1: round-trip of the obfuscation transform: for every
JSON-representable value `v` and every non-empty key `k` (a JavaScript
string, so its code units fit UTF-16), decrypting the encryption of `v`
under `k` with the same `k` returns `v`. -/
theorem C1_roundtrip (v : JsonValue) (k : JsStr) (hk : k ≠ [])
    (hkwf : ∀ c ∈ k, c < 65536) (hv : jvWF v = true) :
    decrypt (encrypt (some v) k) k = v :=
  decrypt_encrypt v k hk hkwf hv

/-- C1 witness. -/
theorem C1_witness :
    decrypt (encrypt (some (.jobj [(strToCodes "name", .jstr (strToCodes "Ann"))]))
        (strToCodes "pw")) (strToCodes "pw")
      = .jobj [(strToCodes "name", .jstr (strToCodes "Ann"))] :=
  C1_roundtrip (.jobj [(strToCodes "name", .jstr (strToCodes "Ann"))]) (strToCodes "pw")
    (by decide) (by decide) (by decide)

/-- C6: for null and for undefined (`none`), `encrypt` returns the
sentinel string `"__NULL__"` directly — by the first branch of the
source, before any byte-shift is computed — and `decrypt` maps the
sentinel back to null under every key. -/
theorem C6_null_sentinel (k : JsStr) :
    encrypt none k = nullSentinel ∧ encrypt (some .jnull) k = nullSentinel ∧
    decrypt nullSentinel k = .jnull :=
  ⟨rfl, rfl, by rw [decrypt, if_pos rfl]⟩

/-- C7: `isExpired` returns false when the expiration entry is absent;
when the entry is present and parses, it returns true exactly when the
parsed expiry timestamp is at most the current time in seconds. -/
theorem C7_isExpired_semantics (s : Store) (nk : JsStr) (now : Int) :
    (getItem s (createExpirationKey nk) = none → isExpired s nk now = false) ∧
    (∀ str t, getItem s (createExpirationKey nk) = some str → parseIntJs str = some t →
      (isExpired s nk now = true ↔ t ≤ now)) := by
  constructor
  · intro h
    rw [isExpired, h]
  · intro str t h1 h2
    rw [isExpired, h1]
    simp only [h2, decide_eq_true_eq, ge_iff_le]

/-- C7 witness. -/
theorem C7_witness :
    isExpired [(createExpirationKey (strToCodes "x"), strToCodes "5")] (strToCodes "x") 9
      = true ∧
    isExpired [] (strToCodes "x") 9 = false := by
  constructor
  · exact ((C7_isExpired_semantics [(createExpirationKey (strToCodes "x"), strToCodes "5")]
      (strToCodes "x") 9).2 (strToCodes "5") 5 (by decide) (by decide)).mpr (by omega)
  · exact (C7_isExpired_semantics [] (strToCodes "x") 9).1 (by decide)

theorem removeItem_twice (s : Store) (k : JsStr) :
    removeItem (removeItem s k) k = removeItem s k := by
  simp only [removeItem, List.filter_filter]
  simp

theorem removeItem_comm (s : Store) (k1 k2 : JsStr) :
    removeItem (removeItem s k1) k2 = removeItem (removeItem s k2) k1 := by
  simp only [removeItem, List.filter_filter]
  simp [Bool.and_comm]

theorem removeItem_absent (s : Store) (k : JsStr) (h : getItem s k = none) :
    removeItem s k = s := by
  rw [removeItem, List.filter_eq_self]
  intro p hp
  rw [getItem] at h
  have hfind : List.find? (fun p => decide (p.1 = k)) s = none := by
    cases hf : List.find? (fun p => decide (p.1 = k)) s with
    | none => rfl
    | some q =>
      rw [hf] at h
      exact Option.noConfusion h
  have := List.find?_eq_none.mp hfind p hp
  simpa using this

/-- C9: `remove(k)` deletes both the value entry and the expiration
entry; removing twice equals removing once, and removing a key whose
entries are absent (in particular a never-set key) leaves the substrate
exactly as it was. -/
theorem C9_remove_idempotent (ns k : JsStr) (s : Store) :
    regRemove ns k (regRemove ns k s) = regRemove ns k s ∧
    (getItem s (createNamespacedKey k ns) = none →
      getItem s (createExpirationKey (createNamespacedKey k ns)) = none →
      regRemove ns k s = s) := by
  constructor
  · rw [regRemove, regRemove, removeValue, removeValue]
    rw [removeItem_comm (removeItem s (createNamespacedKey k ns))
      (createExpirationKey (createNamespacedKey k ns)) (createNamespacedKey k ns),
      removeItem_twice, removeItem_twice]
  · intro h1 h2
    rw [regRemove, removeValue, removeItem_absent _ _ h1, removeItem_absent _ _ h2]

/-- C9 witness. -/
theorem C9_witness :
    regRemove (strToCodes "N") (strToCodes "k")
        (regRemove (strToCodes "N") (strToCodes "k")
          [(strToCodes "other", strToCodes "v")])
      = regRemove (strToCodes "N") (strToCodes "k")
          [(strToCodes "other", strToCodes "v")] ∧
    regRemove (strToCodes "N") (strToCodes "k") [(strToCodes "other", strToCodes "v")]
      = [(strToCodes "other", strToCodes "v")] := by
  have h := C9_remove_idempotent (strToCodes "N") (strToCodes "k")
    [(strToCodes "other", strToCodes "v")]
  exact ⟨h.1, h.2 (by decide) (by decide)⟩

theorem shiftCodes_nil_key (P : JsStr) (i : Nat) :
    shiftCodes P [] i = List.replicate P.length none := by
  induction P generalizing i with
  | nil => rfl
  | cons c rest ih =>
    rw [shiftCodes.eq_def]
    simp only [List.length_cons, List.replicate_succ, List.cons.injEq]
    exact ⟨rfl, ih (i + 1)⟩

theorem jsonEncode_ne_nil (v : JsonValue) : jsonEncode v ≠ [] := by
  cases v with
  | jnull => decide
  | jbool b => cases b <;> decide
  | jnum n =>
    rw [jsonEncode_jnum, intToAscii]
    split_ifs
    · simp
    · exact natToAscii_ne_nil _
  | jstr s => rw [jsonEncode_jstr, quoteString]; simp
  | jarr es => rw [jsonEncode_jarr]; simp
  | jobj fs => rw [jsonEncode_jobj]; simp

theorem jvWFElems_replicate_jnull (n : Nat) :
    jvWFElems (List.replicate n .jnull) = true := by
  induction n with
  | zero => rw [List.replicate_zero, jvWFElems_nil]
  | succ m ih =>
    rw [List.replicate_succ, jvWFElems_cons, jvWF_jnull, ih]
    rfl

theorem reconstruct_nil_key (n : Nat) :
    reconstruct (.jarr (List.replicate n .jnull)) [] = List.replicate n 0 := by
  rw [reconstruct, arrayLikeLen, List.length_replicate]
  simp only [Int.toNat_ofNat]
  apply List.ext_getElem
  · simp
  · intro i h1 h2
    have hi : i < n := by simpa using h1
    simp only [List.getElem_map, List.getElem_range, List.getElem_replicate]
    have helem : (List.replicate n JsonValue.jnull)[i]? = some .jnull := by
      rw [List.getElem?_eq_getElem (by simpa using hi), List.getElem_replicate]
    rw [decryptCode, elemAt, helem]
    rfl

theorem jsonDecode_replicate_zero (n : Nat) (h : 1 ≤ n) :
    jsonDecode (List.replicate n 0) = none := by
  obtain ⟨m, rfl⟩ : ∃ m, n = m + 1 := ⟨n - 1, by omega⟩
  rw [jsonDecode, List.replicate_succ, List.length_cons, List.length_replicate,
    parseVal_succ, skipWs_cons, show isWsCode 0 = false from rfl]
  norm_num
  rw [parseNumber.eq_def]
  norm_num [isDigitCode]

/-- C5 (amended): `encrypt(v, "")` with the empty key does not fail — the
source has no `InvalidKey` check anywhere — it silently returns a JSON
array of `null`s (one per code unit of the serialization, each shifted
code being `NaN`), and the data is unrecoverable: after `set` with the
empty logical key (hence empty obfuscation key), `get` returns null. -/
theorem C5_empty_key_amended (v : JsonValue) (hv : v ≠ .jnull) :
    encrypt (some v) []
      = jsonEncode (.jarr (List.replicate (jsonEncode v).length .jnull)) ∧
    ∀ (ns : JsStr) (now now2 : Int) (s : Store),
      (regGet ns [] now2 (regSet ns [] (some v) none now s)).1 = .jnull := by
  have hpayload : encrypt (some v) []
      = jsonEncode (.jarr (List.replicate (jsonEncode v).length .jnull)) := by
    rw [encrypt_some v hv [], shiftCodes_nil_key, List.map_replicate]
    rfl
  refine ⟨hpayload, ?_⟩
  intro ns now now2 s
  by_cases hexp : isExpired (regSet ns [] (some v) none now s)
      (createNamespacedKey [] ns) now2 = true
  · rw [regGet, getValue, hexp]
    simp
  · rw [Bool.not_eq_true] at hexp
    have hwfarr : jvWF (.jarr (List.replicate (jsonEncode v).length .jnull)) = true := by
      rw [jvWF_jarr]
      exact jvWFElems_replicate_jnull _
    have hval := getItem_regSet_value ns [] (some v) none now s
    have hparse : jsonDecode (jsonEncode (.jstr (encrypt (some v) [])))
        = some (.jstr (encrypt (some v) [])) := by
      refine jsonDecode_jsonEncode _ ?_
      rw [jvWF_jstr, List.all_eq_true, hpayload]
      intro c hc
      simpa using jsonEncode_units _ hwfarr c hc
    rw [regGet, getValue, hexp]
    simp only [Bool.false_eq_true, if_false, hval, hparse]
    have h1 : (JsonValue.jstr (encrypt (some v) [])) ≠ .jnull := fun h =>
      JsonValue.noConfusion h
    have hns : encrypt (some v) [] ≠ nullSentinel := by
      rw [encrypt_some v hv []]
      exact jsonEncode_jarr_ne_sentinel _
    have h2 : (JsonValue.jstr (encrypt (some v) [])) ≠ .jstr nullSentinel := by
      intro h
      injection h with h
      exact hns h
    simp only [h1, h2, if_false]
    rw [show decryptVal (.jstr (encrypt (some v) [])) [] = decrypt (encrypt (some v) []) []
      from rfl]
    have hn : 1 ≤ (jsonEncode v).length := by
      cases henc : jsonEncode v with
      | nil => exact absurd henc (jsonEncode_ne_nil v)
      | cons a t => simp [henc]
    rw [decrypt, if_neg hns, hpayload, jsonDecode_jsonEncode _ hwfarr]
    simp only [reconstruct_nil_key, jsonDecode_replicate_zero _ hn]

/-- C5 counterexample: the claim says `encode(v, "")` fails with
`InvalidKey`, but no such check exists in the code: the call returns
normally with the junk payload `"[null]"` (each shifted code is `NaN`,
printed as `null`). -/
theorem C5_counterexample : encrypt (some (.jnum 1)) [] = strToCodes "[null]" := by decide

/-- C5 witness. -/
theorem C5_witness :
    encrypt (some (.jnum 12)) []
      = jsonEncode (.jarr (List.replicate (jsonEncode (.jnum 12)).length .jnull)) ∧
    (regGet (strToCodes "NS") [] 0
      (regSet (strToCodes "NS") [] (some (.jnum 12)) none 0 [])).1 = .jnull := by
  have h := C5_empty_key_amended (.jnum 12) (fun hx => JsonValue.noConfusion hx)
  exact ⟨h.1, h.2 (strToCodes "NS") 0 0 []⟩

/-- A text with a bad start is rejected by `parseVal` whatever the fuel. -/
theorem badJsonStart_parseVal (f : Nat) (s : JsStr) (h : badJsonStart s = true) :
    parseVal (f + 1) s = none := by
  rw [parseVal_succ]
  simp only [badJsonStart] at h
  cases hs : skipWs s with
  | nil => rfl
  | cons c rest =>
    rw [hs] at h
    simp only [Bool.not_eq_true'] at h
    simp only [jsonStartOk, Bool.or_eq_false_iff, decide_eq_false_iff_not] at h
    obtain ⟨⟨⟨⟨⟨⟨⟨h1, h2⟩, h3⟩, h4⟩, h5⟩, h6⟩, h7⟩, h8⟩ := h
    simp only [if_neg h6, if_neg h4, if_neg h5, if_neg h3, if_neg h2, if_neg h1]
    simp only [parseNumber, if_neg h7, h8, Bool.false_eq_true, if_false,
      Option.map_none']

/-- A text with a bad start is not valid JSON for `jsonDecode` — and, since
the first-character dispatch is common to the whole JSON grammar, not for
`JSON.parse` either. -/
theorem badJsonStart_jsonDecode (s : JsStr) (h : badJsonStart s = true) :
    jsonDecode s = none := by
  rw [jsonDecode, badJsonStart_parseVal s.length s h]

/-- C8: writing a corrupt string directly into the substrate under a
namespaced key makes `get` on the corresponding logical key return null.
Corruption is stated through `badJsonStart`, a first-character criterion
every parser of the JSON grammar acts on identically, so the hypothesis
names only texts `JSON.parse` itself rejects: the stored text has a bad
start; or it is a non-sentinel JSON string whose content has a bad start;
or that content is an array of integer codes — exact in double arithmetic —
whose reconstruction under the logical key has a bad start.  The embedding
is total: every exception the source can raise on this path is caught
inside `getValue` or `decrypt` and converted to exactly this null result,
so nothing propagates to the caller. -/
theorem C8_corruption (s : Store) (ns k : JsStr) (now : Int) (c : JsStr)
    (hc : badJsonStart c = true ∨
      ∃ p, jsonDecode c = some (.jstr p) ∧ p ≠ nullSentinel ∧
        (badJsonStart p = true ∨
          ∃ codes, jsonDecode p = some (.jarr codes) ∧
            (∀ x ∈ codes, ∃ n : Int, x = .jnum n ∧ n.natAbs ≤ 2 ^ 52) ∧
            badJsonStart (reconstruct (.jarr codes) k) = true)) :
    (regGet ns k now (setItem s (createNamespacedKey k ns) c)).1 = .jnull := by
  by_cases hexp : isExpired (setItem s (createNamespacedKey k ns) c)
      (createNamespacedKey k ns) now = true
  · rw [regGet, getValue, hexp]
    simp
  · rw [Bool.not_eq_true] at hexp
    rw [regGet, getValue, hexp]
    simp only [Bool.false_eq_true, if_false, getItem_setItem_self]
    rcases hc with hc | ⟨p, hp1, hp2, hrec⟩
    · rw [badJsonStart_jsonDecode c hc]
    · rw [hp1]
      have h1 : (JsonValue.jstr p) ≠ .jnull := fun h => JsonValue.noConfusion h
      have h2 : (JsonValue.jstr p) ≠ .jstr nullSentinel := by
        intro h
        injection h with h
        exact hp2 h
      simp only [h1, h2, if_false]
      rw [show decryptVal (.jstr p) k = decrypt p k from rfl, decrypt, if_neg hp2]
      rcases hrec with hrec | ⟨codes, hc1, _, hc2⟩
      · rw [badJsonStart_jsonDecode p hrec]
      · rw [hc1]
        simp only [badJsonStart_jsonDecode _ hc2]

/-- C8 witness, through the deepest branch: the substrate value is the
9-character text `"[300]"` (a JSON string), its content parses to the
code array `[300]`, and shifting by the key `"k"` (code 107) rebuilds the
one-character string of code unit 193, which cannot begin JSON. -/
theorem C8_witness :
    (regGet (strToCodes "NS") (strToCodes "k") 0
      (setItem [] (createNamespacedKey (strToCodes "k") (strToCodes "NS"))
        (strToCodes "\"[300]\""))).1 = .jnull :=
  C8_corruption [] (strToCodes "NS") (strToCodes "k") 0 (strToCodes "\"[300]\"")
    (Or.inr ⟨strToCodes "[300]", by decide, by decide, Or.inr
      ⟨[.jnum 300], by decide,
        fun x hx => ⟨300, List.mem_singleton.mp hx, by decide⟩,
        by decide⟩⟩)

/-- Entries whose keys do not contain the namespace token survive
`emptyNamespace`. -/
theorem getItem_emptyNamespace (s : Store) (pat x : JsStr)
    (hx : isSubstringOf pat x = false) :
    getItem (emptyNamespace s pat) x = getItem s x := by
  induction s with
  | nil => rfl
  | cons p rest ih =>
    obtain ⟨k2, v2⟩ := p
    rw [emptyNamespace, List.filter_cons]
    by_cases h : isSubstringOf pat k2 = true
    · rw [if_neg (by simp [h])]
      have hne : k2 ≠ x := by
        intro he
        rw [he, hx] at h
        exact Bool.noConfusion h
      rw [getItem_cons_other k2 v2 x rest hne]
      exact ih
    · rw [Bool.not_eq_true] at h
      rw [if_pos (by simp [h])]
      by_cases h3 : k2 = x
      · subst h3
        rw [getItem_cons_self]
        exact (getItem_cons_self k2 v2 rest).symm
      · rw [getItem_cons_other k2 v2 x _ h3, getItem_cons_other k2 v2 x rest h3]
        exact ih

/-- While unexpired, the value component `getValue` returns is the parse
of the stored string. -/
theorem getValue_fst_live (s : Store) (nk : JsStr) (now : Int)
    (h : isExpired s nk now = false) :
    (getValue s nk now).1 = (getItem s nk).bind jsonDecode := by
  rw [getValue, h]
  simp only [Bool.false_eq_true, if_false]
  cases hg : getItem s nk with
  | none => rfl
  | some str =>
    simp only [Option.some_bind]
    cases hj : jsonDecode str <;> simp

/-- The value component `get` returns, expressed through `getValue`. -/
theorem regGet_fst (ns k : JsStr) (now : Int) (s : Store) :
    (regGet ns k now s).1
      = match (getValue s (createNamespacedKey k ns) now).1 with
        | none => .jnull
        | some ev =>
          if ev = .jnull then .jnull
          else if ev = .jstr nullSentinel then .jnull
          else decryptVal ev k := by
  rw [regGet]
  cases hgv : getValue s (createNamespacedKey k ns) now with
  | mk fst snd =>
    cases fst with
    | none => rfl
    | some ev =>
      by_cases hev : ev = JsonValue.jnull
      · simp [hev]
      · by_cases hev2 : ev = JsonValue.jstr nullSentinel
        · simp [hev, hev2]
        · simp [hev, hev2]

/-- The value `get` returns depends on the substrate only through the
namespaced key's entry and its expiration entry. -/
theorem regGet_val_congr (ns k : JsStr) (now : Int) (s s2 : Store)
    (h1 : getItem s2 (createNamespacedKey k ns) = getItem s (createNamespacedKey k ns))
    (h2 : getItem s2 (createExpirationKey (createNamespacedKey k ns))
      = getItem s (createExpirationKey (createNamespacedKey k ns))) :
    (regGet ns k now s2).1 = (regGet ns k now s).1 := by
  have hexp : isExpired s2 (createNamespacedKey k ns) now
      = isExpired s (createNamespacedKey k ns) now := by
    rw [isExpired, isExpired, h2]
  rw [regGet_fst, regGet_fst]
  by_cases he : isExpired s (createNamespacedKey k ns) now = true
  · have hl : (getValue s2 (createNamespacedKey k ns) now).1 = none := by
      rw [getValue, hexp, he]
      simp
    have hr : (getValue s (createNamespacedKey k ns) now).1 = none := by
      rw [getValue, he]
      simp
    rw [hl, hr]
  · rw [Bool.not_eq_true] at he
    rw [getValue_fst_live s2 _ now (by rw [hexp]; exact he),
      getValue_fst_live s _ now he, h1]

/-- A write by one instance is invisible to another instance's substrate
entries when the composed keys do not alias. -/
theorem getItem_regSet_other (ns2 k2 : JsStr) (v : Option JsonValue) (e : Option Int)
    (now : Int) (s : Store) (x : JsStr)
    (hx1 : x ≠ createNamespacedKey k2 ns2)
    (hx2 : x ≠ createExpirationKey (createNamespacedKey k2 ns2)) :
    getItem (regSet ns2 k2 v e now s) x = getItem s x := by
  cases e with
  | none => rw [regSet_none_unfold, getItem_setItem_other _ _ _ _ hx1]
  | some e2 =>
    rw [regSet_some_unfold, getItem_setItem_other _ _ _ _ hx2,
      getItem_setItem_other _ _ _ _ hx1]

/-- C2 (amended): isolation between two Registry instances holds exactly
when the composed substrate keys do not alias.  A `set` by the second
instance leaves the first instance's `get` unchanged provided the first
instance's namespaced key and its expiration key differ from the written
namespaced key and its expiration key; and `empty()` on the second
instance leaves the first instance's `get` unchanged provided the second
namespace token occurs in neither of the first instance's two substrate
keys.  Distinct labels alone do not guarantee these side conditions,
because keys are composed by plain concatenation and `empty()` matches by
substring containment — see the counterexample. -/
theorem C2_isolation_amended (ns1 ns2 k1 k2 : JsStr) (v : Option JsonValue)
    (e : Option Int) (now now2 : Int) (s : Store) :
    (createNamespacedKey k1 ns1 ≠ createNamespacedKey k2 ns2 →
      createNamespacedKey k1 ns1 ≠ createExpirationKey (createNamespacedKey k2 ns2) →
      createExpirationKey (createNamespacedKey k1 ns1) ≠ createNamespacedKey k2 ns2 →
      createExpirationKey (createNamespacedKey k1 ns1)
        ≠ createExpirationKey (createNamespacedKey k2 ns2) →
      (regGet ns1 k1 now2 (regSet ns2 k2 v e now s)).1 = (regGet ns1 k1 now2 s).1) ∧
    (isSubstringOf ns2 (createNamespacedKey k1 ns1) = false →
      isSubstringOf ns2 (createExpirationKey (createNamespacedKey k1 ns1)) = false →
      (regGet ns1 k1 now2 (regEmpty ns2 s)).1 = (regGet ns1 k1 now2 s).1) := by
  constructor
  · intro ha hb hc hd
    exact regGet_val_congr ns1 k1 now2 s _
      (getItem_regSet_other ns2 k2 v e now s _ ha hb)
      (getItem_regSet_other ns2 k2 v e now s _ hc hd)
  · intro ha hb
    exact regGet_val_congr ns1 k1 now2 s _
      (getItem_emptyNamespace s ns2 _ ha)
      (getItem_emptyNamespace s ns2 _ hb)

/-- C2 counterexample: labels `"a"` and `"b"` are distinct, so the claim
demands that `empty()` on the `"b"` instance never removes an entry
written by the `"a"` instance.  But the `"a"` instance's write under the
logical key `"QGI="` — the base64 token of namespace `"b"` — produces the
substrate key `"QGI=QGE="`, which contains `"QGI="`; `empty()` on the
`"b"` instance deletes it, and the `"a"` instance's `get` then returns
null instead of the stored 1. -/
theorem C2_counterexample :
    strToCodes "a" ≠ strToCodes "b" ∧
    (regGet (getNamespace [] (some (strToCodes "a"))) (strToCodes "QGI=") 0
      (regSet (getNamespace [] (some (strToCodes "a"))) (strToCodes "QGI=")
        (some (.jnum 1)) none 0 [])).1 = .jnum 1 ∧
    (regGet (getNamespace [] (some (strToCodes "a"))) (strToCodes "QGI=") 0
      (regEmpty (getNamespace [] (some (strToCodes "b")))
        (regSet (getNamespace [] (some (strToCodes "a"))) (strToCodes "QGI=")
          (some (.jnum 1)) none 0 []))).1 = .jnull := by decide

/-- C2 witness. -/
theorem C2_witness :
    (regGet (strToCodes "N1") (strToCodes "k1") 0
      (regSet (strToCodes "N2") (strToCodes "k2") (some (.jnum 3)) none 0 [])).1
      = (regGet (strToCodes "N1") (strToCodes "k1") 0 ([] : Store)).1 ∧
    (regGet (strToCodes "N1") (strToCodes "k1") 0
      (regEmpty (strToCodes "N2") [])).1
      = (regGet (strToCodes "N1") (strToCodes "k1") 0 ([] : Store)).1 := by
  have h := C2_isolation_amended (strToCodes "N1") (strToCodes "N2") (strToCodes "k1")
    (strToCodes "k2") (some (.jnum 3)) none 0 0 []
  exact ⟨h.1 (by decide) (by decide) (by decide) (by decide), h.2 (by decide) (by decide)⟩

/-- C10 witness. -/
theorem C10_witness :
    (encrypt (some (.jnum 5)) (strToCodes "a")).head? = some 91 ∧
    (regGet (strToCodes "NS") (strToCodes "a") 0
      (regSet (strToCodes "NS") (strToCodes "a") (some (.jstr nullSentinel)) none 0 [])).1
      = .jstr nullSentinel := by
  have h := C10_sentinel_no_collision (strToCodes "a") (by decide) (by decide)
  exact ⟨(h.1 (.jnum 5) (fun hx => JsonValue.noConfusion hx)).1,
    h.2 (strToCodes "NS") 0 [] (by decide)⟩

end RegistryJs
